import Mathlib

/-! # Buffer manager: two-queue (FIFO + LRU) replacement over `std::vector` queues

A shallow embedding of `src/include/moderndbs/buffer_manager.h` and
`src/src/buffer_manager.cc`, followed by theorems about `fix_page` and `unfix_page`.

Conventions of the embedding.

* `std::vector<BufferFrame>` is a `List BufferFrame` (head = index 0), `push_back` is
  `++ [x]`, `erase(begin() + i)` is `List.eraseIdx`.
* `std::map<uint64_t, int>` is an association list with the semantics of `count`, `at`,
  `insert` (which never overwrites a present key) and `clear`.
* Positions and loop counters are natural numbers: the `static_cast<int>` of a vector
  size and the `int` stored in a map are the identity as long as the vectors hold fewer
  than `2^31` frames, which is taken for granted.
* An out-of-range `vector[position]` and the release of a mutex that is not held are
  undefined behaviour in C++; the embedding reports them (`FixResult.undefined`, `none`).
* `page_mutex` is explicit state.  A call that has to wait for it does not return as long
  as nothing else runs; the embedding reports it as `FixResult.blocked`.
  `vector_mutex` is acquired and released inside every call (on every path, also the
  throwing one and before the write-back) and is free between calls, so it is not part of
  the state.
* `unfix_page` receives the frame by value: of the `BufferFrame&` it is handed, the code
  reads `getPageID()` and `getExclusiveLock()` only.
* A `read_block` is taken to succeed (a read that throws does so at line 65, before
  anything of the manager has been touched); a `write_block` may fail, and the exception
  then leaves `fix_page` from the middle of the eviction.
* A page is the list of the 64-bit words of `frameVector`, `pageSize / sizeof(uint64_t)` of
  them.  What a client writes through `get_data()` between `fix_page` and `unfix_page` is
  not among the calls of the call sequences below.
* A call sequence runs one call after the other.  For two calls of `fix_page` at once, the
  part of a call before the locks (lines 58-66) and the part from `page_mutex` on (lines
  67-249) are also embedded apart (`fix_page_enter`, `fix_page_resume`), with the
  increments of a counter through `get_data()` as `increment_returned`.
-/

namespace moderndbs

/-! ## Block device -/

/-- One call into the block I/O adapter. -/
inductive IOEvent where
  | read_block (file : String) (offset size : Nat)
  | write_block (file : String) (offset size : Nat) (data : List Nat)
deriving DecidableEq, Repr

/-- Whether the event is a `write_block`. -/
def IOEvent.isWrite : IOEvent → Bool
  | .read_block _ _ _ => false
  | .write_block _ _ _ _ => true

/-- Modelled from the spec: the block I/O adapter `File` of `moderndbs/file.h`, which is not
among the sources.  Segment files are named by the decimal segment id; `blocks` holds the
blocks written so far (newest first) by file name and byte offset, a range never written
reads as zeros; `faulty` lists the places at which `write_block` fails with an I/O error;
`log` records every call in order. -/
structure File where
  blocks : List ((String × Nat) × List Nat)
  faulty : List (String × Nat)
  log : List IOEvent
deriving DecidableEq, Repr

/-- The value of `std::vector<uint64_t>::resize(n)` on `v`: cut, or filled with zeros. -/
def resize (v : List Nat) (n : Nat) : List Nat :=
  v.take n ++ List.replicate (n - v.length) 0

/-- Modelled from the spec: `File::open_file(name, WRITE)->read_block(offset, size, dst)`
with `dst` a buffer of `size / sizeof(uint64_t)` words.  Returns the device with the call
logged, and the words read. -/
def File.read_block (d : File) (name : String) (offset size : Nat) : File × List Nat :=
  ({ d with log := d.log ++ [IOEvent.read_block name offset size] },
   resize ((d.blocks.lookup (name, offset)).getD []) (size / 8))

/-- Modelled from the spec: `File::open_file(name, WRITE)->write_block(src, offset, size)`.
Returns the device after the call and whether the write succeeded. -/
def File.write_block (d : File) (name : String) (src : List Nat) (offset size : Nat) :
    File × Bool :=
  if (name, offset) ∈ d.faulty then
    ({ d with log := d.log ++ [IOEvent.write_block name offset size src] }, false)
  else
    ({ d with blocks := ((name, offset), src) :: d.blocks,
              log := d.log ++ [IOEvent.write_block name offset size src] }, true)

/-- The decimal rendering `std::to_string(n)`. -/
def to_string (n : Nat) : String := toString n

/-! ## Frames -/

/-- The class `BufferFrame`: `pageID`, `isDirty`, `counter`, `frameVector` (the page as
64-bit words), `hasExclusiveLock`. -/
structure BufferFrame where
  pageID : Nat
  isDirty : Bool
  counter : Int
  frameVector : List Nat
  hasExclusiveLock : Bool
deriving DecidableEq, Repr

/-- The constructor `BufferFrame::BufferFrame(page_id, is_dirty, frame_size)`; `counter`
and `hasExclusiveLock` take their default member initialisers `1` and `false`. -/
def BufferFrame.create (page_id : Nat) (is_dirty : Bool) (frame_size : Nat) : BufferFrame :=
  { pageID := page_id, isDirty := is_dirty, counter := 1,
    frameVector := resize [] (frame_size / 8), hasExclusiveLock := false }

def BufferFrame.setDirty (f : BufferFrame) (is_dirty : Bool) : BufferFrame :=
  { f with isDirty := is_dirty }

def BufferFrame.getDirty (f : BufferFrame) : Bool := f.isDirty

/-- The method `setCounter()`: it takes no argument and stores `0`. -/
def BufferFrame.setCounter (f : BufferFrame) : BufferFrame :=
  { f with counter := 0 }

def BufferFrame.getCounter (f : BufferFrame) : Int := f.counter

def BufferFrame.getPageID (f : BufferFrame) : Nat := f.pageID

def BufferFrame.getFrameVector (f : BufferFrame) : List Nat := f.frameVector

def BufferFrame.setFrameVector (f : BufferFrame) (vec : List Nat) : BufferFrame :=
  { f with frameVector := vec }

def BufferFrame.setExclusiveLock (f : BufferFrame) (exclusive : Bool) : BufferFrame :=
  { f with hasExclusiveLock := exclusive }

def BufferFrame.getExclusiveLock (f : BufferFrame) : Bool := f.hasExclusiveLock

/-! ## The page lock -/

/-- State of a `std::shared_mutex`: free, held in shared mode by `n + 1` owners
(`shared n`), or held exclusively. -/
inductive shared_mutex where
  | unlocked
  | shared (n : Nat)
  | exclusive
deriving DecidableEq, Repr

/-- The call `lock()`: `none` when the caller has to wait. -/
def shared_mutex.lock : shared_mutex → Option shared_mutex
  | .unlocked => some .exclusive
  | _ => none

/-- The call `lock_shared()`: `none` when the caller has to wait. -/
def shared_mutex.lock_shared : shared_mutex → Option shared_mutex
  | .unlocked => some (.shared 0)
  | .shared n => some (.shared (n + 1))
  | .exclusive => none

/-- The call `unlock()`: `none` when the mutex is not held exclusively (undefined). -/
def shared_mutex.unlock : shared_mutex → Option shared_mutex
  | .exclusive => some .unlocked
  | _ => none

/-- The call `unlock_shared()`: `none` when the mutex is not held shared (undefined). -/
def shared_mutex.unlock_shared : shared_mutex → Option shared_mutex
  | .shared 0 => some .unlocked
  | .shared (n + 1) => some (.shared n)
  | _ => none

/-- Number of owners holding the mutex in shared mode. -/
def shared_mutex.sharedCount : shared_mutex → Nat
  | .shared n => n + 1
  | _ => 0

/-! ## Index maps -/

/-- The type `std::map<uint64_t, int>`. -/
abbrev PosMap := List (Nat × Nat)

/-- The call `m.insert(std::pair(key, value))`: no effect when the key is present. -/
def PosMap.insert (m : PosMap) (key value : Nat) : PosMap :=
  match m.lookup key with
  | some _ => m
  | none => m ++ [(key, value)]

/-- The loop `for (i = start; ...; i++) m.insert(pair(v[i - start].getPageID(), i))`. -/
def reassignFrom (m : PosMap) (start : Nat) : List BufferFrame → PosMap
  | [] => m
  | f :: fs => reassignFrom (m.insert f.getPageID start) (start + 1) fs

/-- The statement `map.clear()` followed by the loop that reassigns all positions. -/
def reassign (v : List BufferFrame) : PosMap := reassignFrom [] 0 v

/-- The index at which a loop `for (i = 0; i < v.size(); i++) if (p(v[i])) ...` first finds
its condition true. -/
def firstIdx (p : BufferFrame → Bool) : List BufferFrame → Option Nat
  | [] => none
  | f :: fs => if p f then some 0 else (firstIdx p fs).map (· + 1)

/-- The index the eviction loops stop at: the first frame with `getCounter() == 0` whose
dirty flag is `dirty`. -/
def findUnfixed (dirty : Bool) (v : List BufferFrame) : Option Nat :=
  firstIdx (fun f => decide (f.getCounter = 0) && (f.getDirty == dirty)) v

/-! ## The manager -/

/-- The class `BufferManager`, together with the block device it works on. -/
structure BufferManager where
  fifo : List BufferFrame
  lru : List BufferFrame
  pageSize : Nat
  pageCount : Nat
  page_mutex : shared_mutex
  fifoMap : PosMap
  lruMap : PosMap
  disk : File
deriving DecidableEq, Repr

/-- The constructor `BufferManager::BufferManager(page_size, page_count)`, on device `disk`. -/
def BufferManager.create (page_size page_count : Nat) (disk : File) : BufferManager :=
  { fifo := [], lru := [], pageSize := page_size, pageCount := page_count,
    page_mutex := .unlocked, fifoMap := [], lruMap := [], disk := disk }

def get_segment_id (page_id : Nat) : Nat := (page_id >>> 48) % 2 ^ 16

def get_segment_page_id (page_id : Nat) : Nat := page_id &&& (2 ^ 48 - 1)

/-- The local `offSet`: `get_segment_page_id(page_id) * pageSize` in `uint64_t`. -/
def offSet (page_id pageSize : Nat) : Nat := (get_segment_page_id page_id * pageSize) % 2 ^ 64

def BufferManager.get_fifo_list (s : BufferManager) : List Nat := s.fifo.map (·.getPageID)

def BufferManager.get_lru_list (s : BufferManager) : List Nat := s.lru.map (·.getPageID)

/-- How a call of `fix_page` ends. -/
inductive FixResult where
  /-- returns a reference to `frame`, the back of the FIFO or LRU vector -/
  | ok (s : BufferManager) (frame : BufferFrame)
  /-- throws `buffer_full_error` -/
  | buffer_full_error (s : BufferManager)
  /-- the exception of a failed `write_block` leaves the call -/
  | io_error (s : BufferManager)
  /-- waits for `page_mutex` -/
  | blocked (s : BufferManager)
  /-- undefined behaviour -/
  | undefined
deriving DecidableEq, Repr

/-- The state the call leaves, when it leaves one. -/
def FixResult.state? : FixResult → Option BufferManager
  | .ok s _ => some s
  | .buffer_full_error s => some s
  | .io_error s => some s
  | .blocked s => some s
  | .undefined => none

/-- The frame returned, when the call returns. -/
def FixResult.frame? : FixResult → Option BufferFrame
  | .ok _ frame => some frame
  | _ => none

/-- The tail of the returning paths:
`if (!exclusive) page_mutex.unlock_shared(); vector_mutex.unlock(); return v.back();`. -/
def return_back (s : BufferManager) (exclusive : Bool) (back : BufferFrame) : FixResult :=
  if exclusive then .ok s back
  else
    match s.page_mutex.unlock_shared with
    | some m => .ok { s with page_mutex := m } back
    | none => .undefined

/-- The tail of the paths that evict a dirty frame (lines 164-178 and 225-239): release
`page_mutex` in the mode taken, write the victim back, take `page_mutex` again when
`exclusive`, return. -/
def write_back (s : BufferManager) (exclusive : Bool) (tempID : Nat) (tempVector : List Nat)
    (back : BufferFrame) : FixResult :=
  match (if exclusive then s.page_mutex.unlock else s.page_mutex.unlock_shared) with
  | none => .undefined
  | some m =>
    let w := s.disk.write_block (to_string (get_segment_id tempID)) tempVector
      (offSet tempID s.pageSize) s.pageSize
    if w.2 then
      if exclusive then
        match m.lock with
        | some m2 => .ok { s with page_mutex := m2, disk := w.1 } back
        | none => .blocked { s with page_mutex := m, disk := w.1 }
      else .ok { s with page_mutex := m, disk := w.1 } back
    else .io_error { s with page_mutex := m, disk := w.1 }

/-- Lines 183-249 of `fix_page`: admission to FIFO, with eviction from FIFO when the pool
is full. -/
def fix_page_fifo (s : BufferManager) (newPage : BufferFrame) (page_id : Nat)
    (exclusive : Bool) : FixResult :=
  if s.lru.length + s.fifo.length < s.pageCount then
    let fifo := s.fifo ++ [newPage]
    return_back { s with fifo := fifo, fifoMap := s.fifoMap.insert page_id (fifo.length - 1) }
      exclusive newPage
  else
    match findUnfixed false s.fifo with
    | some i =>
      let fifo := s.fifo.eraseIdx i ++ [newPage]
      return_back { s with fifo := fifo, fifoMap := reassign fifo } exclusive newPage
    | none =>
      match findUnfixed true s.fifo with
      | some i =>
        match s.fifo[i]? with
        | none => .undefined
        | some victim =>
          let fifo := s.fifo.eraseIdx i ++ [newPage]
          write_back { s with fifo := fifo, fifoMap := reassign fifo } exclusive
            victim.getPageID victim.getFrameVector newPage
      | none =>
        match (if exclusive then s.page_mutex.unlock else s.page_mutex.unlock_shared) with
        | some m => .buffer_full_error { s with page_mutex := m }
        | none => .undefined

/-- Lines 112-181 of `fix_page`, entered when `page_id` is a key of `fifoMap` stored with
`position`: promotion to LRU, with eviction from LRU when the pool is full.  `none` when
control falls through to line 183. -/
def fix_page_promote (s : BufferManager) (newPage : BufferFrame) (page_id position : Nat)
    (exclusive : Bool) : Option FixResult :=
  if s.lru.length + s.fifo.length < s.pageCount then
    match s.fifo[position]? with
    | none => some .undefined
    | some old =>
      let newPage := (newPage.setDirty old.getDirty).setFrameVector old.getFrameVector
      let fifo := s.fifo.eraseIdx position
      let lru := s.lru ++ [newPage]
      some (return_back { s with fifo := fifo, fifoMap := reassign fifo, lru := lru,
                                 lruMap := s.lruMap.insert page_id (lru.length - 1) }
        exclusive newPage)
  else
    match findUnfixed false s.lru with
    | some i =>
      let lru := s.lru.eraseIdx i ++ [newPage]
      some (return_back { s with lru := lru, lruMap := reassign lru } exclusive newPage)
    | none =>
      match findUnfixed true s.lru with
      | some i =>
        match s.lru[i]? with
        | none => some .undefined
        | some victim =>
          let lru := s.lru.eraseIdx i ++ [newPage]
          some (write_back { s with lru := lru, lruMap := reassign lru } exclusive
            victim.getPageID victim.getFrameVector newPage)
      | none => none

/-- Lines 79-249 of `fix_page`: the part under `vector_mutex`, with `page_mutex` taken and
`newPage` built. -/
def fix_page_locked (s : BufferManager) (newPage : BufferFrame) (page_id : Nat)
    (exclusive : Bool) : FixResult :=
  if s.fifo.length = 0 ∧ s.lru.length = 0 then
    return_back { s with fifo := s.fifo ++ [newPage], fifoMap := s.fifoMap.insert page_id 0 }
      exclusive newPage
  else
    match s.lruMap.lookup page_id with
    | some position =>
      match s.lru[position]? with
      | none => .undefined
      | some old =>
        let newPage := (newPage.setDirty old.getDirty).setFrameVector old.getFrameVector
        let lru := s.lru.eraseIdx position ++ [newPage]
        return_back { s with lru := lru, lruMap := reassign lru } exclusive newPage
    | none =>
      match s.fifoMap.lookup page_id with
      | some position =>
        match fix_page_promote s newPage page_id position exclusive with
        | some r => r
        | none => fix_page_fifo s newPage page_id exclusive
      | none => fix_page_fifo s newPage page_id exclusive

/-- Lines 58-66 of `fix_page`: the page is read from its segment file when it is a key of
neither map; `values` stays empty otherwise. -/
def fix_page_read (s : BufferManager) (page_id : Nat) : File × List Nat :=
  if (s.fifoMap.lookup page_id).isNone ∧ (s.lruMap.lookup page_id).isNone then
    s.disk.read_block (to_string (get_segment_id page_id)) (offSet page_id s.pageSize) s.pageSize
  else (s.disk, [])

/-- Lines 73-77 of `fix_page`: the frame `newPage`. -/
def fix_page_newPage (pageSize page_id : Nat) (exclusive : Bool) (values : List Nat) :
    BufferFrame :=
  let newPage := (BufferFrame.create page_id false pageSize).setExclusiveLock exclusive
  if values.length > 0 then newPage.setFrameVector values else newPage

/-- The method `BufferManager::fix_page(page_id, exclusive)`. -/
def fix_page (s : BufferManager) (page_id : Nat) (exclusive : Bool) : FixResult :=
  let r := fix_page_read s page_id
  match (if exclusive then s.page_mutex.lock else s.page_mutex.lock_shared) with
  | none => .blocked { s with disk := r.1 }
  | some m =>
    fix_page_locked { s with disk := r.1, page_mutex := m }
      (fix_page_newPage s.pageSize page_id exclusive r.2) page_id exclusive

/-- The statements `v[position].setCounter(); v[position].setDirty(is_dirty);` of
`unfix_page`, guarded by `map.count(id) > 0`; `none` when `position` is out of range. -/
def unfix_in (v : List BufferFrame) (m : PosMap) (id : Nat) (is_dirty : Bool) :
    Option (List BufferFrame) :=
  match m.lookup id with
  | none => some v
  | some position =>
    match v[position]? with
    | none => none
    | some f => some (v.set position (f.setCounter.setDirty is_dirty))

/-- The method `BufferManager::unfix_page(page, is_dirty)`; `none` on undefined behaviour. -/
def unfix_page (s : BufferManager) (page : BufferFrame) (is_dirty : Bool) :
    Option BufferManager :=
  match unfix_in s.fifo s.fifoMap page.getPageID is_dirty with
  | none => none
  | some fifo =>
    match unfix_in s.lru s.lruMap page.getPageID is_dirty with
    | none => none
    | some lru =>
      if page.getExclusiveLock then
        match s.page_mutex.unlock with
        | none => none
        | some m => some { s with fifo := fifo, lru := lru, page_mutex := m }
      else some { s with fifo := fifo, lru := lru }

/-! ## Call sequences -/

/-- A call of the public interface. -/
inductive Call where
  | fix_page (page_id : Nat) (exclusive : Bool)
  | unfix_page (page : BufferFrame) (is_dirty : Bool)
deriving DecidableEq, Repr

/-- The state after one call that comes back to the caller (by return or by exception);
`none` when the call waits for `page_mutex` or is undefined. -/
def step (s : BufferManager) : Call → Option BufferManager
  | .fix_page page_id exclusive =>
    match fix_page s page_id exclusive with
    | .ok s1 _ => some s1
    | .buffer_full_error s1 => some s1
    | .io_error s1 => some s1
    | .blocked _ => none
    | .undefined => none
  | .unfix_page page is_dirty => unfix_page s page is_dirty

/-- The state after a sequence of calls, each of which comes back to the caller. -/
def run (s : BufferManager) : List Call → Option BufferManager
  | [] => some s
  | c :: cs =>
    match step s c with
    | some s1 => run s1 cs
    | none => none

/-! ## Concrete data for the examples -/

/-- A block device with nothing written and no faulty place. -/
def emptyDisk : File := { blocks := [], faulty := [], log := [] }

/-- The reference a client holds after `fix_page(page_id, exclusive)`, as far as
`unfix_page` reads it: the page id and the lock flag. -/
def pageRef (page_id : Nat) (exclusive : Bool) : BufferFrame :=
  (BufferFrame.create page_id false 64).setExclusiveLock exclusive

/-- The ways a call of `fix_page` ends, without the state. -/
inductive Outcome where
  | ok
  | buffer_full_error
  | io_error
  | blocked
  | undefined
deriving DecidableEq, Repr

def FixResult.outcome : FixResult → Outcome
  | .ok _ _ => .ok
  | .buffer_full_error _ => .buffer_full_error
  | .io_error _ => .io_error
  | .blocked _ => .blocked
  | .undefined => .undefined

/-- Outstanding fixes of page `p` over a sequence of calls from `s`: the calls
`fix_page(p, _)` that returned a frame, minus the calls of `unfix_page` on `p`. -/
def outstanding (p : Nat) (s : BufferManager) : List Call → Int
  | [] => 0
  | c :: cs =>
    match step s c with
    | none => 0
    | some s1 =>
      (match c with
        | .fix_page id e =>
          if id = p ∧ (fix_page s id e).outcome = .ok then (1 : Int) else 0
        | .unfix_page page _ => if page.getPageID = p then (-1 : Int) else 0)
      + outstanding p s1 cs

/-- The queues, the maps and the two sizes of `s1` are those of `s`. -/
def SameQueues (s1 s : BufferManager) : Prop :=
  s1.fifo = s.fifo ∧ s1.lru = s.lru ∧ s1.fifoMap = s.fifoMap ∧ s1.lruMap = s.lruMap ∧
    s1.pageCount = s.pageCount ∧ s1.pageSize = s.pageSize

/-- The alternatives for the queues and maps after a call `fix_page(page_id, _)` that
leaves state `s1`, in terms of those before. -/
inductive Shape (s : BufferManager) (page_id : Nat) (s1 : BufferManager) : Prop where
  /-- nothing moved: the call waits for the lock or throws `buffer_full_error` -/
  | same : s1.fifo = s.fifo → s1.lru = s.lru → s1.fifoMap = s.fifoMap →
      s1.lruMap = s.lruMap → Shape s page_id s1
  /-- lines 81-89: both vectors empty -/
  | first (f : BufferFrame) : s.fifo = [] → s.lru = [] →
      f.getPageID = page_id → f.getCounter = 1 →
      s1.fifo = [f] → s1.lru = [] → s1.fifoMap = s.fifoMap.insert page_id 0 →
      s1.lruMap = s.lruMap → Shape s page_id s1
  /-- lines 92-108: the page is a key of `lruMap` -/
  | hit (f : BufferFrame) (position : Nat) : s.lruMap.lookup page_id = some position →
      position < s.lru.length → f.getPageID = page_id → f.getCounter = 1 →
      s1.lru = s.lru.eraseIdx position ++ [f] → s1.lruMap = reassign s1.lru →
      s1.fifo = s.fifo → s1.fifoMap = s.fifoMap → Shape s page_id s1
  /-- lines 113-131: promotion, the pool not full -/
  | promote (f : BufferFrame) (position : Nat) : s.lruMap.lookup page_id = none →
      s.fifoMap.lookup page_id = some position → position < s.fifo.length →
      s.lru.length + s.fifo.length < s.pageCount →
      f.getPageID = page_id → f.getCounter = 1 →
      s1.fifo = s.fifo.eraseIdx position → s1.fifoMap = reassign s1.fifo →
      s1.lru = s.lru ++ [f] → s1.lruMap = s.lruMap.insert page_id s.lru.length →
      Shape s page_id s1
  /-- lines 134-180: the page is a key of `fifoMap`, the pool full, a frame of LRU goes -/
  | evict_lru (f : BufferFrame) (i position : Nat) (dirty : Bool) :
      s.lruMap.lookup page_id = none →
      s.fifoMap.lookup page_id = some position →
      ¬ s.lru.length + s.fifo.length < s.pageCount →
      findUnfixed dirty s.lru = some i →
      f.getPageID = page_id → f.getCounter = 1 →
      s1.lru = s.lru.eraseIdx i ++ [f] → s1.lruMap = reassign s1.lru →
      s1.fifo = s.fifo → s1.fifoMap = s.fifoMap → Shape s page_id s1
  /-- lines 183-192: room left, the page goes to the FIFO tail -/
  | append_fifo (f : BufferFrame) : s.lruMap.lookup page_id = none →
      s.fifoMap.lookup page_id = none →
      s.lru.length + s.fifo.length < s.pageCount →
      f.getPageID = page_id → f.getCounter = 1 →
      s1.fifo = s.fifo ++ [f] → s1.fifoMap = s.fifoMap.insert page_id s.fifo.length →
      s1.lru = s.lru → s1.lruMap = s.lruMap → Shape s page_id s1
  /-- lines 195-241: the pool full, a frame of FIFO goes -/
  | evict_fifo (f : BufferFrame) (i : Nat) (dirty : Bool) :
      s.lruMap.lookup page_id = none →
      ¬ s.lru.length + s.fifo.length < s.pageCount →
      findUnfixed dirty s.fifo = some i →
      f.getPageID = page_id → f.getCounter = 1 →
      s1.fifo = s.fifo.eraseIdx i ++ [f] → s1.fifoMap = reassign s1.fifo →
      s1.lru = s.lru → s1.lruMap = s.lruMap → Shape s page_id s1

/-- Capacity as an invariant of a single call. -/
def Bounded (s : BufferManager) : Prop :=
  1 ≤ s.pageCount ∧ s.fifo.length + s.lru.length ≤ s.pageCount

/-- The consistency that every call maintains: each map is what the reassignment loop
would build from its vector, no page occurs twice in LRU, and as long as the pool is not
full no page occurs twice in FIFO and LRU together. -/
structure Inv (s : BufferManager) : Prop where
  fifoMap_eq : s.fifoMap = reassign s.fifo
  lruMap_eq : s.lruMap = reassign s.lru
  lru_nodup : s.get_lru_list.Nodup
  nodup : s.lru.length + s.fifo.length < s.pageCount →
    (s.get_fifo_list ++ s.get_lru_list).Nodup

/-- The state of `page_mutex` when `fix_page` returns, the mutex having been free. -/
def heldAfter (e : Bool) : shared_mutex := if e then .exclusive else .unlocked

/-- The states that shared fixes of distinct pages lead to from a new manager. -/
structure AllFixed (s : BufferManager) : Prop where
  mutex : s.page_mutex = .unlocked
  fifoMap_eq : s.fifoMap = reassign s.fifo
  lruMap_eq : s.lruMap = []
  lru_eq : s.lru = []
  counter : ∀ f ∈ s.fifo, f.getCounter = 1

/-- The state after three shared fixes on a pool of two frames; the third fix throws. -/
def capacityDemo : BufferManager :=
  (run (BufferManager.create 64 2 emptyDisk)
    [.fix_page 1 false, .fix_page 2 false, .fix_page 3 false]).getD
    (BufferManager.create 64 2 emptyDisk)

/-- A pool of two frames with page 2 fixed and unfixed, then page 1 fixed. -/
def pinDemo : BufferManager :=
  (run (BufferManager.create 64 2 emptyDisk)
    [.fix_page 2 false, .unfix_page (pageRef 2 false) false, .fix_page 1 false]).getD
    (BufferManager.create 64 2 emptyDisk)

/-- The state after `fix_page(3, false)` in `pinDemo`. -/
def pinDemoNext : BufferManager :=
  ((fix_page pinDemo 3 false).state?).getD pinDemo

/-- The frame of page 1 in `pinDemo`. -/
def pinDemoFrame : BufferFrame :=
  (pinDemo.fifo.getLast?).getD (pageRef 1 false)

/-- The frame that `fix_page(1, false)` returns in `pinDemo`. -/
def pinDemoHit : BufferFrame :=
  ((fix_page pinDemo 1 false).frame?).getD (pageRef 1 false)

/-- The state after `unfix_page` on page 1 in `pinDemo`. -/
def pinDemoUnfixed : BufferManager :=
  (unfix_page pinDemo (pageRef 1 false) false).getD pinDemo

/-- A pool of one frame, with page 1 fixed. -/
def fullDemo : BufferManager :=
  (run (BufferManager.create 64 1 emptyDisk) [.fix_page 1 false]).getD
    (BufferManager.create 64 1 emptyDisk)

/-- The state after `fix_page(2, true)` has thrown in `fullDemo`. -/
def fullDemoAfter : BufferManager :=
  ((fix_page fullDemo 2 true).state?).getD fullDemo

/-- A pool of ten frames with pages 1 and 2 in FIFO, both unfixed. -/
def promoteDemo : BufferManager :=
  (run (BufferManager.create 64 10 emptyDisk)
    [.fix_page 1 false, .unfix_page (pageRef 1 false) false, .fix_page 2 false,
     .unfix_page (pageRef 2 false) false]).getD (BufferManager.create 64 10 emptyDisk)

/-- A pool of ten frames with pages 1 and 2 in LRU, both unfixed. -/
def lruDemo : BufferManager :=
  (run (BufferManager.create 64 10 emptyDisk)
    [.fix_page 1 false, .fix_page 1 false, .unfix_page (pageRef 1 false) false,
     .fix_page 2 false, .fix_page 2 false, .unfix_page (pageRef 2 false) false]).getD
    (BufferManager.create 64 10 emptyDisk)

/-- A full pool of two frames: page 1 unfixed and dirty at the FIFO head, page 2 unfixed
and clean behind it. -/
def cleanDemo : BufferManager :=
  (run (BufferManager.create 64 2 emptyDisk)
    [.fix_page 1 true, .unfix_page (pageRef 1 true) true, .fix_page 2 false,
     .unfix_page (pageRef 2 false) false]).getD (BufferManager.create 64 2 emptyDisk)

/-! ## The paths of `fix_page` in full -/

/-- Whether the lock of lines 67-71 is granted at once. -/
def canLock (s : BufferManager) (exclusive : Bool) : Bool :=
  (if exclusive then s.page_mutex.lock else s.page_mutex.lock_shared).isSome

/-- The state of `page_mutex` when `fix_page` returns a frame: held exclusively after an
exclusive fix, and as before the call after a shared one. -/
def mutexAfter (s : BufferManager) (exclusive : Bool) : shared_mutex :=
  if exclusive then .exclusive else s.page_mutex

/-- The frame `newPage` of a call, as built in lines 58-77. -/
def newFrame (s : BufferManager) (page_id : Nat) (exclusive : Bool) : BufferFrame :=
  fix_page_newPage s.pageSize page_id exclusive (fix_page_read s page_id).2

/-- The frame `newPage` after `setDirty(old.getDirty())` and
`setFrameVector(old.getFrameVector())`. -/
def carried (newPage old : BufferFrame) : BufferFrame :=
  (newPage.setDirty old.getDirty).setFrameVector old.getFrameVector

/-- The `write_block` call that writes `victim` back on device `d`. -/
def victimWrite (d : File) (pageSize : Nat) (victim : BufferFrame) : File × Bool :=
  d.write_block (to_string (get_segment_id victim.getPageID)) victim.getFrameVector
    (offSet victim.getPageID pageSize) pageSize

/-- The event of the `write_block` call that writes `victim` back. -/
def victimEvent (pageSize : Nat) (victim : BufferFrame) : IOEvent :=
  IOEvent.write_block (to_string (get_segment_id victim.getPageID))
    (offSet victim.getPageID pageSize) pageSize victim.getFrameVector

/-- Control reaches line 183: the page is in neither map, or it is a key of `fifoMap`, the
pool is full and no frame of LRU has `getCounter() == 0`. -/
def ReachesFifo (s : BufferManager) (page_id : Nat) : Prop :=
  s.lruMap.lookup page_id = none ∧
  (s.fifoMap.lookup page_id = none ∨
    ((s.fifoMap.lookup page_id).isSome ∧ ¬ s.lru.length + s.fifo.length < s.pageCount ∧
      findUnfixed false s.lru = none ∧ findUnfixed true s.lru = none))

/-- The result of `fix_page(page_id, exclusive)` in state `s`, path by path. -/
inductive Path (s : BufferManager) (page_id : Nat) (exclusive : Bool) : FixResult → Prop where
  /-- lines 67-71: the lock is not granted -/
  | blocked : canLock s exclusive = false →
      Path s page_id exclusive (.blocked { s with disk := (fix_page_read s page_id).1 })
  /-- lines 81-89 -/
  | first : canLock s exclusive = true → s.fifo = [] → s.lru = [] →
      Path s page_id exclusive
        (.ok { s with fifo := s.fifo ++ [newFrame s page_id exclusive],
                      fifoMap := s.fifoMap.insert page_id 0,
                      disk := (fix_page_read s page_id).1,
                      page_mutex := mutexAfter s exclusive }
          (newFrame s page_id exclusive))
  /-- line 94 with a position that is not an index of `lru` -/
  | stale_lru (position : Nat) : canLock s exclusive = true →
      ¬ (s.fifo.length = 0 ∧ s.lru.length = 0) →
      s.lruMap.lookup page_id = some position → s.lru[position]? = none →
      Path s page_id exclusive .undefined
  /-- lines 92-108 -/
  | hit (position : Nat) (old : BufferFrame) : canLock s exclusive = true →
      ¬ (s.fifo.length = 0 ∧ s.lru.length = 0) →
      s.lruMap.lookup page_id = some position → s.lru[position]? = some old →
      Path s page_id exclusive
        (.ok { s with lru := s.lru.eraseIdx position ++
                        [carried (newFrame s page_id exclusive) old],
                      lruMap := reassign (s.lru.eraseIdx position ++
                        [carried (newFrame s page_id exclusive) old]),
                      disk := (fix_page_read s page_id).1,
                      page_mutex := mutexAfter s exclusive }
          (carried (newFrame s page_id exclusive) old))
  /-- line 115 with a position that is not an index of `fifo` -/
  | stale_fifo (position : Nat) : canLock s exclusive = true →
      ¬ (s.fifo.length = 0 ∧ s.lru.length = 0) →
      s.lruMap.lookup page_id = none → s.fifoMap.lookup page_id = some position →
      s.lru.length + s.fifo.length < s.pageCount → s.fifo[position]? = none →
      Path s page_id exclusive .undefined
  /-- lines 113-131 -/
  | promote (position : Nat) (old : BufferFrame) : canLock s exclusive = true →
      ¬ (s.fifo.length = 0 ∧ s.lru.length = 0) →
      s.lruMap.lookup page_id = none → s.fifoMap.lookup page_id = some position →
      s.lru.length + s.fifo.length < s.pageCount → s.fifo[position]? = some old →
      Path s page_id exclusive
        (.ok { s with fifo := s.fifo.eraseIdx position,
                      fifoMap := reassign (s.fifo.eraseIdx position),
                      lru := s.lru ++ [carried (newFrame s page_id exclusive) old],
                      lruMap := s.lruMap.insert page_id s.lru.length,
                      disk := (fix_page_read s page_id).1,
                      page_mutex := mutexAfter s exclusive }
          (carried (newFrame s page_id exclusive) old))
  /-- lines 134-149 -/
  | lru_clean (position i : Nat) : canLock s exclusive = true →
      ¬ (s.fifo.length = 0 ∧ s.lru.length = 0) →
      s.lruMap.lookup page_id = none → s.fifoMap.lookup page_id = some position →
      ¬ s.lru.length + s.fifo.length < s.pageCount →
      findUnfixed false s.lru = some i →
      Path s page_id exclusive
        (.ok { s with lru := s.lru.eraseIdx i ++ [newFrame s page_id exclusive],
                      lruMap := reassign (s.lru.eraseIdx i ++ [newFrame s page_id exclusive]),
                      disk := (fix_page_read s page_id).1,
                      page_mutex := mutexAfter s exclusive }
          (newFrame s page_id exclusive))
  /-- lines 153-179, the write succeeding -/
  | lru_dirty (position i : Nat) (victim : BufferFrame) : canLock s exclusive = true →
      ¬ (s.fifo.length = 0 ∧ s.lru.length = 0) →
      s.lruMap.lookup page_id = none → s.fifoMap.lookup page_id = some position →
      ¬ s.lru.length + s.fifo.length < s.pageCount →
      findUnfixed false s.lru = none → findUnfixed true s.lru = some i →
      s.lru[i]? = some victim →
      (victimWrite (fix_page_read s page_id).1 s.pageSize victim).2 = true →
      Path s page_id exclusive
        (.ok { s with lru := s.lru.eraseIdx i ++ [newFrame s page_id exclusive],
                      lruMap := reassign (s.lru.eraseIdx i ++ [newFrame s page_id exclusive]),
                      disk := (victimWrite (fix_page_read s page_id).1 s.pageSize victim).1,
                      page_mutex := mutexAfter s exclusive }
          (newFrame s page_id exclusive))
  /-- lines 153-174, the write failing -/
  | lru_dirty_fails (position i : Nat) (victim : BufferFrame) : canLock s exclusive = true →
      ¬ (s.fifo.length = 0 ∧ s.lru.length = 0) →
      s.lruMap.lookup page_id = none → s.fifoMap.lookup page_id = some position →
      ¬ s.lru.length + s.fifo.length < s.pageCount →
      findUnfixed false s.lru = none → findUnfixed true s.lru = some i →
      s.lru[i]? = some victim →
      (victimWrite (fix_page_read s page_id).1 s.pageSize victim).2 = false →
      Path s page_id exclusive
        (.io_error { s with lru := s.lru.eraseIdx i ++ [newFrame s page_id exclusive],
                            lruMap := reassign
                              (s.lru.eraseIdx i ++ [newFrame s page_id exclusive]),
                            disk := (victimWrite (fix_page_read s page_id).1 s.pageSize
                              victim).1 })
  /-- lines 183-192 -/
  | append_fifo : canLock s exclusive = true →
      ¬ (s.fifo.length = 0 ∧ s.lru.length = 0) →
      s.lruMap.lookup page_id = none → s.fifoMap.lookup page_id = none →
      s.lru.length + s.fifo.length < s.pageCount →
      Path s page_id exclusive
        (.ok { s with fifo := s.fifo ++ [newFrame s page_id exclusive],
                      fifoMap := s.fifoMap.insert page_id s.fifo.length,
                      disk := (fix_page_read s page_id).1,
                      page_mutex := mutexAfter s exclusive }
          (newFrame s page_id exclusive))
  /-- lines 195-210 -/
  | fifo_clean (i : Nat) : canLock s exclusive = true →
      ¬ (s.fifo.length = 0 ∧ s.lru.length = 0) → ReachesFifo s page_id →
      ¬ s.lru.length + s.fifo.length < s.pageCount →
      findUnfixed false s.fifo = some i →
      Path s page_id exclusive
        (.ok { s with fifo := s.fifo.eraseIdx i ++ [newFrame s page_id exclusive],
                      fifoMap := reassign
                        (s.fifo.eraseIdx i ++ [newFrame s page_id exclusive]),
                      disk := (fix_page_read s page_id).1,
                      page_mutex := mutexAfter s exclusive }
          (newFrame s page_id exclusive))
  /-- lines 214-240, the write succeeding -/
  | fifo_dirty (i : Nat) (victim : BufferFrame) : canLock s exclusive = true →
      ¬ (s.fifo.length = 0 ∧ s.lru.length = 0) → ReachesFifo s page_id →
      ¬ s.lru.length + s.fifo.length < s.pageCount →
      findUnfixed false s.fifo = none → findUnfixed true s.fifo = some i →
      s.fifo[i]? = some victim →
      (victimWrite (fix_page_read s page_id).1 s.pageSize victim).2 = true →
      Path s page_id exclusive
        (.ok { s with fifo := s.fifo.eraseIdx i ++ [newFrame s page_id exclusive],
                      fifoMap := reassign
                        (s.fifo.eraseIdx i ++ [newFrame s page_id exclusive]),
                      disk := (victimWrite (fix_page_read s page_id).1 s.pageSize victim).1,
                      page_mutex := mutexAfter s exclusive }
          (newFrame s page_id exclusive))
  /-- lines 214-235, the write failing -/
  | fifo_dirty_fails (i : Nat) (victim : BufferFrame) : canLock s exclusive = true →
      ¬ (s.fifo.length = 0 ∧ s.lru.length = 0) → ReachesFifo s page_id →
      ¬ s.lru.length + s.fifo.length < s.pageCount →
      findUnfixed false s.fifo = none → findUnfixed true s.fifo = some i →
      s.fifo[i]? = some victim →
      (victimWrite (fix_page_read s page_id).1 s.pageSize victim).2 = false →
      Path s page_id exclusive
        (.io_error { s with fifo := s.fifo.eraseIdx i ++ [newFrame s page_id exclusive],
                            fifoMap := reassign
                              (s.fifo.eraseIdx i ++ [newFrame s page_id exclusive]),
                            disk := (victimWrite (fix_page_read s page_id).1 s.pageSize
                              victim).1 })
  /-- lines 242-248 -/
  | full : canLock s exclusive = true →
      ¬ (s.fifo.length = 0 ∧ s.lru.length = 0) → ReachesFifo s page_id →
      ¬ s.lru.length + s.fifo.length < s.pageCount →
      findUnfixed false s.fifo = none → findUnfixed true s.fifo = none →
      Path s page_id exclusive
        (.buffer_full_error { s with disk := (fix_page_read s page_id).1 })

/-! ## The destructor -/

/-- One loop of the destructor, `for (auto f : v) if (f.getDirty()) ... write_block(...)`:
the device afterwards, and whether the loop ran to its end.  A `write_block` that throws
ends it. -/
def write_dirty (pageSize : Nat) : File → List BufferFrame → File × Bool
  | d, [] => (d, true)
  | d, f :: fs =>
    if f.getDirty then
      if (victimWrite d pageSize f).2 then write_dirty pageSize (victimWrite d pageSize f).1 fs
      else ((victimWrite d pageSize f).1, false)
    else write_dirty pageSize d fs

/-- The destructor `BufferManager::~BufferManager()`: the loop over `fifo`, then the loop
over `lru`.  Returns the device afterwards and whether the destructor ran to its end. -/
def BufferManager.destructor (s : BufferManager) : File × Bool :=
  if (write_dirty s.pageSize s.disk s.fifo).2 then
    write_dirty s.pageSize (write_dirty s.pageSize s.disk s.fifo).1 s.lru
  else write_dirty s.pageSize s.disk s.fifo

/-! ## Frames and their bytes -/

/-- Every frame of the pool holds `pageSize / sizeof(uint64_t)` words. -/
def Sized (s : BufferManager) : Prop :=
  ∀ f ∈ s.fifo ++ s.lru, f.getFrameVector.length = s.pageSize / 8

/-- The number of frames in `l` that hold the page of `v` with the bytes of `v` and the dirty
flag set. -/
def dirtyCopies (v : BufferFrame) (l : List BufferFrame) : Nat :=
  l.countP (fun w => decide (w.getPageID = v.getPageID) && w.getDirty &&
    decide (w.getFrameVector = v.getFrameVector))

/-- A state after a destructor-free run on an empty device: page 1 written dirty, page 2
clean, both unfixed, in a pool of two frames. -/
def teardownDemo : BufferManager :=
  (run (BufferManager.create 64 2 emptyDisk)
    [.fix_page 1 true, .unfix_page (pageRef 1 true) true, .fix_page 2 false,
     .unfix_page (pageRef 2 false) false]).getD (BufferManager.create 64 2 emptyDisk)

/-- A pool of two frames in which FIFO holds page 2 twice. -/
def staleDemo : BufferManager :=
  (run (BufferManager.create 64 2 emptyDisk)
    [.fix_page 1 false, .unfix_page (pageRef 1 false) false, .fix_page 2 false,
     .fix_page 2 false]).getD (BufferManager.create 64 2 emptyDisk)

/-- A pool of one frame holding page 1, unfixed and dirty, on an empty device. -/
def evictDemo : BufferManager :=
  (run (BufferManager.create 64 1 emptyDisk)
    [.fix_page 1 true, .unfix_page (pageRef 1 true) true]).getD
    (BufferManager.create 64 1 emptyDisk)

/-- The frame of page 1 in `evictDemo`. -/
def evictDemoVictim : BufferFrame :=
  (evictDemo.fifo.head?).getD (pageRef 1 true)

/-- The state after `fix_page(2, false)` in `evictDemo`. -/
def evictDemoNext : BufferManager :=
  ((fix_page evictDemo 2 false).state?).getD evictDemo

/-- A device on which the write of page 1 of segment 0 (offset 64 for pages of 64 bytes)
fails. -/
def faultyDisk : File := { blocks := [], faulty := [("0", 64)], log := [] }

/-- A device whose segment file 0 holds the words 1 to 8 as page 2 (pages of 64 bytes). -/
def dataDisk : File :=
  { blocks := [(("0", 128), [1, 2, 3, 4, 5, 6, 7, 8])], faulty := [], log := [] }

/-! ## Two calls of `fix_page` at once

Lines 58-66 of `fix_page` (the residency test and the `read_block`) run before
`page_mutex` (lines 67-71) and `vector_mutex` (line 79) are taken, so a second thread can
run them between lines 66 and 67 of the first.  The two parts of a call are embedded apart:
`fix_page_enter` is lines 58-66, `fix_page_resume` is lines 67-249. -/

/-- Lines 58-66 of `fix_page`: the manager after them (only the device has been called)
and the local vector `values` the thread goes on with. -/
def fix_page_enter (s : BufferManager) (page_id : Nat) : BufferManager × List Nat :=
  ({ s with disk := (fix_page_read s page_id).1 }, (fix_page_read s page_id).2)

/-- Lines 67-249 of `fix_page`, run in state `s` by a thread that holds `values` since its
lines 58-66. -/
def fix_page_resume (s : BufferManager) (page_id : Nat) (exclusive : Bool)
    (values : List Nat) : FixResult :=
  match (if exclusive then s.page_mutex.lock else s.page_mutex.lock_shared) with
  | none => .blocked s
  | some m =>
    fix_page_locked { s with page_mutex := m }
      (fix_page_newPage s.pageSize page_id exclusive values) page_id exclusive

/-- The words of a page after `n` increments of the 64-bit counter at `get_data()`. -/
def increment_words (data : List Nat) (n : Nat) : List Nat :=
  match data with
  | [] => []
  | w :: ws => (w + n) % 2 ^ 64 :: ws

/-- What `n` increments of the counter at `frame.get_data()` leave, `frame` being the
reference that `fix_page` returned in state `s`: that reference is `lru.back()` (lines 107,
130, 147, 178) or `fifo.back()` (lines 88, 191, 208, 239), and the words of the frame at
the back of that vector are incremented. -/
def increment_returned (s : BufferManager) (frame : BufferFrame) (n : Nat) : BufferManager :=
  if s.lru.getLast? = some frame then
    { s with lru := s.lru.dropLast ++
        [frame.setFrameVector (increment_words frame.getFrameVector n)] }
  else if s.fifo.getLast? = some frame then
    { s with fifo := s.fifo.dropLast ++
        [frame.setFrameVector (increment_words frame.getFrameVector n)] }
  else s

/-- One thread's `fix_page(page_id, true)` from line 67 on, `n` increments of the counter
of the page, and `unfix_page(frame, true)`; `none` unless both calls return. -/
def resume_increment_unfix (s : BufferManager) (page_id : Nat) (values : List Nat)
    (n : Nat) : Option BufferManager :=
  match fix_page_resume s page_id true values with
  | .ok s1 frame => unfix_page (increment_returned s1 frame n) frame true
  | _ => none

/-- Two threads A and B on a new manager of `page_count` frames (pages of 64 bytes, nothing
on the device), each calling `fix_page(1, true)`, incrementing the counter of the page 1000
times and calling `unfix_page` with `is_dirty = true`, in the schedule: A runs lines 58-66;
B runs lines 58-66; A runs lines 67-249, increments and unfixes; B runs lines 67-249,
increments and unfixes. -/
def raceSchedule (page_count : Nat) : Option BufferManager :=
  let a := fix_page_enter (BufferManager.create 64 page_count emptyDisk) 1
  let b := fix_page_enter a.1 1
  (resume_increment_unfix b.1 1 a.2 1000).bind
    (fun s => resume_increment_unfix s 1 b.2 1000)

/-- The same two threads one after the other: B enters `fix_page` after A's
`unfix_page`. -/
def serialSchedule (page_count : Nat) : Option BufferManager :=
  let a := fix_page_enter (BufferManager.create 64 page_count emptyDisk) 1
  (resume_increment_unfix a.1 1 a.2 1000).bind
    (fun s => resume_increment_unfix (fix_page_enter s 1).1 1 (fix_page_enter s 1).2 1000)

/-! # Theorems -/

/-! ## Lists: first index, erase -/

theorem firstIdx_eq_none {p : BufferFrame → Bool} {v : List BufferFrame} :
    firstIdx p v = none ↔ ∀ f ∈ v, p f = false := by
  induction v with
  | nil => simp [firstIdx]
  | cons a v ih =>
    by_cases ha : p a = true
    · simp [firstIdx, ha]
    · simp [firstIdx, ha, ih]

theorem firstIdx_eq_some {p : BufferFrame → Bool} {v : List BufferFrame} {i : Nat}
    (h : firstIdx p v = some i) :
    ∃ pre x post, v = pre ++ x :: post ∧ pre.length = i ∧ p x = true ∧
      ∀ f ∈ pre, p f = false := by
  induction v generalizing i with
  | nil => simp [firstIdx] at h
  | cons a v ih =>
    by_cases ha : p a = true
    · simp [firstIdx, ha] at h
      exact ⟨[], a, v, by simp, by simp [h], ha, by simp⟩
    · simp [firstIdx, ha] at h
      obtain ⟨j, hj, rfl⟩ := h
      obtain ⟨pre, x, post, hv, hl, hx, hpre⟩ := ih hj
      refine ⟨a :: pre, x, post, by simp [hv], by simp [hl], hx, ?_⟩
      intro f hf
      rcases List.mem_cons.mp hf with rfl | hf
      · simpa using ha
      · exact hpre f hf

theorem firstIdx_lt {p : BufferFrame → Bool} {v : List BufferFrame} {i : Nat}
    (h : firstIdx p v = some i) : i < v.length := by
  obtain ⟨pre, x, post, hv, hl, _, _⟩ := firstIdx_eq_some h
  subst hv; simp; omega

theorem findUnfixed_lt {dirty : Bool} {v : List BufferFrame} {i : Nat}
    (h : findUnfixed dirty v = some i) : i < v.length :=
  firstIdx_lt h

theorem firstIdx_split {p : BufferFrame → Bool} (pre post : List BufferFrame) (x : BufferFrame)
    (hx : p x = true) (hpre : ∀ f ∈ pre, p f = false) :
    firstIdx p (pre ++ x :: post) = some pre.length := by
  induction pre with
  | nil => simp [firstIdx, hx]
  | cons a pre ih =>
    have ha : p a = false := hpre a (by simp)
    have := ih (fun f hf => hpre f (by simp [hf]))
    simp [firstIdx, ha, this]

theorem eraseIdx_split {α : Type} (pre post : List α) (x : α) :
    (pre ++ x :: post).eraseIdx pre.length = pre ++ post := by
  induction pre with
  | nil => simp
  | cons a pre ih => simp [ih]

theorem getElem?_split {α : Type} (pre post : List α) (x : α) :
    (pre ++ x :: post)[pre.length]? = some x := by
  induction pre with
  | nil => simp
  | cons a pre ih => simpa using ih

theorem length_eraseIdx_add_one {α : Type} (v : List α) (i : Nat) (h : i < v.length) :
    (v.eraseIdx i).length + 1 = v.length := by
  induction v generalizing i with
  | nil => simp at h
  | cons a v ih =>
    cases i with
    | zero => simp
    | succ i => simp at h; simp [ih i h]

/-! ## The page lock -/

theorem unlock_shared_lock_shared {m m1 : shared_mutex} (h : m.lock_shared = some m1) :
    m1.unlock_shared = some m := by
  cases m <;> simp [shared_mutex.lock_shared] at h <;> subst h <;> simp [shared_mutex.unlock_shared]

theorem unlock_lock {m m1 : shared_mutex} (h : m.lock = some m1) :
    m1.unlock = some m := by
  cases m <;> simp [shared_mutex.lock] at h
  subst h; simp [shared_mutex.unlock]

/-! ## Index maps -/

theorem lookup_append (m n : PosMap) (k : Nat) :
    List.lookup k (m ++ n) = (List.lookup k m).or (List.lookup k n) := by
  induction m with
  | nil => simp
  | cons a m ih =>
    obtain ⟨a1, a2⟩ := a
    by_cases h : k = a1
    · subst h; simp [List.lookup]
    · have : (k == a1) = false := by simpa using h
      simp [List.lookup, this, ih]

/-- The position stored for `k` after the loop: what was stored before, or else the first
index of a frame of page `k`. -/
theorem lookup_reassignFrom (m : PosMap) (start : Nat) (v : List BufferFrame) (k : Nat) :
    List.lookup k (reassignFrom m start v) =
      (List.lookup k m).or ((firstIdx (fun f => f.getPageID == k) v).map (· + start)) := by
  induction v generalizing m start with
  | nil => simp [reassignFrom, firstIdx]
  | cons a v ih =>
    rw [reassignFrom, ih]
    unfold PosMap.insert
    cases hm : List.lookup k m with
    | some x =>
      cases ha : List.lookup a.getPageID m <;> simp [hm, lookup_append]
    | none =>
      by_cases hk : a.getPageID = k
      · subst hk
        simp [hm, firstIdx, lookup_append, List.lookup]
      · have hk2 : (k == a.getPageID) = false := by simpa using fun h => hk h.symm
        cases ha : List.lookup a.getPageID m with
        | some y =>
          simp [hm, firstIdx, hk]
          cases firstIdx (fun f => f.getPageID == k) v <;> simp
          omega
        | none =>
          simp [hm, firstIdx, hk, lookup_append, List.lookup, hk2]
          rw [Nat.add_comm start 1]

theorem lookup_reassign (v : List BufferFrame) (k : Nat) :
    List.lookup k (reassign v) = firstIdx (fun f => f.getPageID == k) v := by
  simp [reassign, lookup_reassignFrom]

theorem reassignFrom_append (m : PosMap) (start : Nat) (v : List BufferFrame) (f : BufferFrame) :
    reassignFrom m start (v ++ [f]) =
      (reassignFrom m start v).insert f.getPageID (start + v.length) := by
  induction v generalizing m start with
  | nil => simp [reassignFrom]
  | cons a v ih =>
    have h := ih (m.insert a.getPageID start) (start + 1)
    have e : start + 1 + v.length = start + (v.length + 1) := by omega
    rw [e] at h
    simpa [reassignFrom] using h

theorem reassign_append (v : List BufferFrame) (f : BufferFrame) :
    reassign (v ++ [f]) = (reassign v).insert f.getPageID v.length := by
  simp [reassign, reassignFrom_append]

theorem reassignFrom_congr (m : PosMap) (start : Nat) (v w : List BufferFrame)
    (h : v.map (·.getPageID) = w.map (·.getPageID)) :
    reassignFrom m start v = reassignFrom m start w := by
  induction v generalizing m start w with
  | nil => cases w <;> simp_all [reassignFrom]
  | cons a v ih =>
    cases w with
    | nil => simp at h
    | cons b w =>
      simp at h
      simp [reassignFrom, h.1, ih _ _ w h.2]

theorem reassign_congr (v w : List BufferFrame)
    (h : v.map (·.getPageID) = w.map (·.getPageID)) : reassign v = reassign w :=
  reassignFrom_congr [] 0 v w h

/-! ## What a call of `fix_page` does to the queues -/

theorem return_back_state {s s1 : BufferManager} {e : Bool} {f : BufferFrame}
    (h : (return_back s e f).state? = some s1) : SameQueues s1 s := by
  unfold return_back at h
  split at h
  · simp [FixResult.state?] at h; subst h; simp [SameQueues]
  · split at h
    · simp [FixResult.state?] at h; subst h; simp [SameQueues]
    · simp [FixResult.state?] at h

theorem write_back_state {s s1 : BufferManager} {e : Bool} {id : Nat} {vec : List Nat}
    {f : BufferFrame} (h : (write_back s e id vec f).state? = some s1) : SameQueues s1 s := by
  unfold write_back at h
  split at h
  · simp [FixResult.state?] at h
  · simp only at h
    split at h
    · split at h
      · split at h
        · simp [FixResult.state?] at h; subst h; simp [SameQueues]
        · simp [FixResult.state?] at h; subst h; simp [SameQueues]
      · simp [FixResult.state?] at h; subst h; simp [SameQueues]
    · simp [FixResult.state?] at h; subst h; simp [SameQueues]

theorem newPage_pageID (pageSize page_id : Nat) (e : Bool) (values : List Nat) :
    (fix_page_newPage pageSize page_id e values).getPageID = page_id := by
  unfold fix_page_newPage
  split <;> rfl

theorem newPage_counter (pageSize page_id : Nat) (e : Bool) (values : List Nat) :
    (fix_page_newPage pageSize page_id e values).getCounter = 1 := by
  unfold fix_page_newPage
  split <;> rfl

theorem fix_page_fifo_shape {s s1 : BufferManager} {f : BufferFrame} {page_id : Nat} {e : Bool}
    (hid : f.getPageID = page_id) (hc : f.getCounter = 1)
    (hl : s.lruMap.lookup page_id = none)
    (hf : s.lru.length + s.fifo.length < s.pageCount → s.fifoMap.lookup page_id = none)
    (h : (fix_page_fifo s f page_id e).state? = some s1) :
    s1.pageCount = s.pageCount ∧ s1.pageSize = s.pageSize ∧ Shape s page_id s1 := by
  unfold fix_page_fifo at h
  split at h
  · next hlt =>
    obtain ⟨h1, h2, h3, h4, h5, h6⟩ := return_back_state h
    exact ⟨h5, h6, .append_fifo f hl (hf hlt) hlt hid hc h1 (by simpa using h3) h2 h4⟩
  · next hlt =>
    split at h
    · next i hi =>
      obtain ⟨h1, h2, h3, h4, h5, h6⟩ := return_back_state h
      exact ⟨h5, h6, .evict_fifo f i false hl hlt hi hid hc h1 (by rw [h3, h1]) h2 h4⟩
    · split at h
      · next i hi =>
        split at h
        · simp [FixResult.state?] at h
        · obtain ⟨h1, h2, h3, h4, h5, h6⟩ := write_back_state h
          exact ⟨h5, h6, .evict_fifo f i true hl hlt hi hid hc h1 (by rw [h3, h1]) h2 h4⟩
      · split at h
        · simp [FixResult.state?] at h; subst h
          exact ⟨rfl, rfl, .same rfl rfl rfl rfl⟩
        · simp [FixResult.state?] at h

theorem fix_page_locked_shape {s s1 : BufferManager} {f : BufferFrame} {page_id : Nat} {e : Bool}
    (hid : f.getPageID = page_id) (hc : f.getCounter = 1)
    (h : (fix_page_locked s f page_id e).state? = some s1) :
    s1.pageCount = s.pageCount ∧ s1.pageSize = s.pageSize ∧ Shape s page_id s1 := by
  unfold fix_page_locked at h
  split at h
  · next h0 =>
    obtain ⟨h1, h2, h3, h4, h5, h6⟩ := return_back_state h
    have hf : s.fifo = [] := List.length_eq_zero.mp h0.1
    have hl : s.lru = [] := List.length_eq_zero.mp h0.2
    exact ⟨h5, h6, .first f hf hl hid hc (by simpa [hf] using h1) (by simpa [hl] using h2) h3 h4⟩
  · split at h
    · next position hp =>
      split at h
      · simp [FixResult.state?] at h
      · next old hold =>
        obtain ⟨h1, h2, h3, h4, h5, h6⟩ := return_back_state h
        have hlt : position < s.lru.length := by
          rcases List.getElem?_eq_some_iff.mp hold with ⟨hlt, _⟩
          exact hlt
        exact ⟨h5, h6, .hit ((f.setDirty old.getDirty).setFrameVector old.getFrameVector) position
          hp hlt hid hc h2 (by rw [h4, h2]) h1 h3⟩
    · next hl =>
      split at h
      · next position hp =>
        split at h
        · next r hr =>
          unfold fix_page_promote at hr
          split at hr
          · next hlt =>
            split at hr
            · simp at hr; subst hr; simp [FixResult.state?] at h
            · next old hold =>
              simp only [Option.some.injEq] at hr; subst hr
              obtain ⟨h1, h2, h3, h4, h5, h6⟩ := return_back_state h
              have hpl : position < s.fifo.length := by
                rcases List.getElem?_eq_some_iff.mp hold with ⟨hlt, _⟩
                exact hlt
              exact ⟨h5, h6, .promote ((f.setDirty old.getDirty).setFrameVector old.getFrameVector)
                position hl hp hpl hlt hid hc h1 (by rw [h3, h1]) h2 (by simpa using h4)⟩
          · next hlt =>
            split at hr
            · next i hi =>
              simp only [Option.some.injEq] at hr; subst hr
              obtain ⟨h1, h2, h3, h4, h5, h6⟩ := return_back_state h
              exact ⟨h5, h6, .evict_lru f i position false hl hp hlt hi hid hc h2
                (by rw [h4, h2]) h1 h3⟩
            · split at hr
              · next i hi =>
                split at hr
                · simp at hr; subst hr; simp [FixResult.state?] at h
                · simp only [Option.some.injEq] at hr; subst hr
                  obtain ⟨h1, h2, h3, h4, h5, h6⟩ := write_back_state h
                  exact ⟨h5, h6, .evict_lru f i position true hl hp hlt hi hid hc h2
                    (by rw [h4, h2]) h1 h3⟩
              · simp at hr
        · next hr =>
          refine fix_page_fifo_shape hid hc hl ?_ h
          intro hlt
          unfold fix_page_promote at hr
          rw [if_pos hlt] at hr
          split at hr <;> simp at hr
      · next hp => exact fix_page_fifo_shape hid hc hl (fun _ => hp) h

theorem fix_page_shape {s s1 : BufferManager} {page_id : Nat} {e : Bool}
    (h : (fix_page s page_id e).state? = some s1) :
    s1.pageCount = s.pageCount ∧ s1.pageSize = s.pageSize ∧ Shape s page_id s1 := by
  unfold fix_page at h
  simp only at h
  split at h
  · simp [FixResult.state?] at h; subst h
    exact ⟨rfl, rfl, .same rfl rfl rfl rfl⟩
  · obtain ⟨h5, h6, hs⟩ :=
      fix_page_locked_shape (newPage_pageID _ _ _ _) (newPage_counter _ _ _ _) h
    refine ⟨h5, h6, ?_⟩
    cases hs with
    | same a b c d => exact .same a b c d
    | first f a b c d e1 e2 e3 e4 => exact .first f a b c d e1 e2 e3 e4
    | hit f p a b c d e1 e2 e3 e4 => exact .hit f p a b c d e1 e2 e3 e4
    | promote f p a b c d e1 e2 e3 e4 e5 e6 => exact .promote f p a b c d e1 e2 e3 e4 e5 e6
    | evict_lru f i p dirty a b c d e1 e2 e3 e4 e5 e6 =>
      exact .evict_lru f i p dirty a b c d e1 e2 e3 e4 e5 e6
    | append_fifo f a b c d e1 e2 e3 e4 e5 => exact .append_fifo f a b c d e1 e2 e3 e4 e5
    | evict_fifo f i dirty a b c d e1 e2 e3 e4 e5 =>
      exact .evict_fifo f i dirty a b c d e1 e2 e3 e4 e5

/-! ## What a call of `unfix_page` does to the queues -/

theorem map_set_same {α β : Type} (g : α → β) (v : List α) (i : Nat) (f f1 : α)
    (hf : v[i]? = some f) (hg : g f1 = g f) : (v.set i f1).map g = v.map g := by
  induction v generalizing i with
  | nil => simp
  | cons a v ih =>
    cases i with
    | zero => simp at hf; subst hf; simp [hg]
    | succ i => simp at hf; simp [ih i hf]

theorem unfix_in_ids {v v1 : List BufferFrame} {m : PosMap} {id : Nat} {d : Bool}
    (h : unfix_in v m id d = some v1) :
    v1.map (·.getPageID) = v.map (·.getPageID) := by
  unfold unfix_in at h
  split at h
  · simp at h; subst h; rfl
  · split at h
    · simp at h
    · next f hf =>
      simp only [Option.some.injEq] at h; subst h
      exact map_set_same _ v _ f _ hf rfl

theorem unfix_in_length {v v1 : List BufferFrame} {m : PosMap} {id : Nat} {d : Bool}
    (h : unfix_in v m id d = some v1) : v1.length = v.length := by
  have := congrArg List.length (unfix_in_ids h)
  simpa using this

theorem unfix_page_state {s s1 : BufferManager} {page : BufferFrame} {d : Bool}
    (h : unfix_page s page d = some s1) :
    unfix_in s.fifo s.fifoMap page.getPageID d = some s1.fifo ∧
    unfix_in s.lru s.lruMap page.getPageID d = some s1.lru ∧
    s1.fifoMap = s.fifoMap ∧ s1.lruMap = s.lruMap ∧
    s1.pageCount = s.pageCount ∧ s1.pageSize = s.pageSize ∧ s1.disk = s.disk := by
  unfold unfix_page at h
  split at h
  · simp at h
  · next fifo hfifo =>
    split at h
    · simp at h
    · next lru hlru =>
      split at h
      · split at h
        · simp at h
        · simp only [Option.some.injEq] at h; subst h
          exact ⟨hfifo, hlru, rfl, rfl, rfl, rfl, rfl⟩
      · simp only [Option.some.injEq] at h; subst h
        exact ⟨hfifo, hlru, rfl, rfl, rfl, rfl, rfl⟩

/-! ## Call sequences -/

theorem step_fix_page {s s1 : BufferManager} {page_id : Nat} {e : Bool}
    (h : step s (.fix_page page_id e) = some s1) :
    (fix_page s page_id e).state? = some s1 := by
  simp only [step] at h
  cases hr : fix_page s page_id e <;> simp [hr, FixResult.state?] at h ⊢ <;> exact h

/-- A property that every call preserves holds after every sequence of calls. -/
theorem run_induction (P : BufferManager → Prop)
    (hstep : ∀ s c s1, P s → step s c = some s1 → P s1) :
    ∀ (calls : List Call) (s s1 : BufferManager), P s → run s calls = some s1 → P s1 := by
  intro calls
  induction calls with
  | nil => intro s s1 hP h; simp [run] at h; subst h; exact hP
  | cons c cs ih =>
    intro s s1 hP h
    unfold run at h
    split at h
    · next s2 hs2 => exact ih s2 s1 (hstep s c s2 hP hs2) h
    · simp at h

theorem run_append {s s1 : BufferManager} {cs ds : List Call} (h : run s cs = some s1) :
    run s (cs ++ ds) = run s1 ds := by
  induction cs generalizing s with
  | nil => simp [run] at h; subst h; rfl
  | cons c cs ih =>
    simp only [List.cons_append, run] at h ⊢
    cases hs2 : step s c with
    | none => simp [hs2] at h
    | some s2 => simp only [hs2] at h ⊢; exact ih h

theorem Bounded_step (s : BufferManager) (c : Call) (s1 : BufferManager)
    (hb : Bounded s) (h : step s c = some s1) : Bounded s1 ∧ s1.pageCount = s.pageCount := by
  obtain ⟨hpc, hle⟩ := hb
  cases c with
  | fix_page page_id e =>
    obtain ⟨h5, _, hs⟩ := fix_page_shape (step_fix_page h)
    refine ⟨⟨by omega, ?_⟩, h5⟩
    rw [h5]
    cases hs with
    | same a b c d => rw [a, b]; exact hle
    | first f a b c d e1 e2 e3 e4 => rw [e1, e2]; simpa using hpc
    | hit f p a b c d e1 e2 e3 e4 =>
      have := length_eraseIdx_add_one s.lru p b
      rw [e1, e3]; simp; omega
    | promote f p a b c d e1 e2 e3 e4 e5 e6 =>
      have := length_eraseIdx_add_one s.fifo p c
      rw [e3, e5]; simp; omega
    | evict_lru f i p dirty a b c d e1 e2 e3 e4 e5 e6 =>
      have := length_eraseIdx_add_one s.lru i (findUnfixed_lt d)
      rw [e3, e5]; simp; omega
    | append_fifo f a b c d e1 e2 e3 e4 e5 =>
      rw [e2, e4]; simp; omega
    | evict_fifo f i dirty a b c d e1 e2 e3 e4 e5 =>
      have := length_eraseIdx_add_one s.fifo i (findUnfixed_lt c)
      rw [e2, e4]; simp; omega
  | unfix_page page d =>
    obtain ⟨h1, h2, _, _, h5, _, _⟩ := unfix_page_state h
    refine ⟨⟨by omega, ?_⟩, h5⟩
    rw [unfix_in_length h1, unfix_in_length h2, h5]; exact hle

/-- C1. Capacity bound: for every `page_count >= 1`, after every sequence of `fix_page` and
`unfix_page` calls on a newly constructed manager, the length of `get_fifo_list` plus the
length of `get_lru_list` is at most `page_count`.  (Every prefix of a sequence of calls is
such a sequence, so the bound holds after each call.) -/
theorem capacity_bound (page_size page_count : Nat) (disk : File) (calls : List Call)
    (s : BufferManager) (hpc : 1 ≤ page_count)
    (h : run (BufferManager.create page_size page_count disk) calls = some s) :
    s.get_fifo_list.length + s.get_lru_list.length ≤ page_count := by
  have key := run_induction (fun t => Bounded t ∧ t.pageCount = page_count)
    (fun t c t1 ht hstep => by
      obtain ⟨hb, he⟩ := Bounded_step t c t1 ht.1 hstep
      exact ⟨hb, he.trans ht.2⟩)
    calls _ s ⟨⟨hpc, by simp [BufferManager.create]⟩, rfl⟩ h
  have := key.1.2
  rw [key.2] at this
  simpa [BufferManager.get_fifo_list, BufferManager.get_lru_list] using this

/-! ## Consistency of the index maps -/

theorem lookup_reassign_eq_none {v : List BufferFrame} {k : Nat} :
    List.lookup k (reassign v) = none ↔ k ∉ v.map (·.getPageID) := by
  rw [lookup_reassign, firstIdx_eq_none]
  simp only [List.mem_map, not_exists, not_and]
  constructor
  · intro h f hf hk
    have := h f hf
    simp [hk] at this
  · intro h f hf
    simpa using h f hf

theorem lookup_reassign_eq_some {v : List BufferFrame} {k i : Nat}
    (h : List.lookup k (reassign v) = some i) :
    ∃ pre x post, v = pre ++ x :: post ∧ pre.length = i ∧ x.getPageID = k ∧
      k ∉ pre.map (·.getPageID) := by
  rw [lookup_reassign] at h
  obtain ⟨pre, x, post, hv, hl, hx, hpre⟩ := firstIdx_eq_some h
  refine ⟨pre, x, post, hv, hl, by simpa using hx, ?_⟩
  simp only [List.mem_map, not_exists, not_and]
  intro f hf hk
  have := hpre f hf
  simp [hk] at this

/-- Erasing the frame at the position stored for `k` removes the first `k` from the list
of page ids. -/
theorem ids_eraseIdx_lookup {v : List BufferFrame} {k i : Nat}
    (h : List.lookup k (reassign v) = some i) :
    i < v.length ∧ k ∈ v.map (·.getPageID) ∧
    (v.eraseIdx i).map (·.getPageID) = (v.map (·.getPageID)).erase k := by
  obtain ⟨pre, x, post, hv, hl, hx, hpre⟩ := lookup_reassign_eq_some h
  subst hv hl hx
  refine ⟨by simp, by simp, ?_⟩
  rw [eraseIdx_split]
  simp only [List.map_append, List.map_cons]
  rw [List.erase_append_right _ hpre]
  simp

theorem Inv_create (page_size page_count : Nat) (disk : File) :
    Inv (BufferManager.create page_size page_count disk) :=
  ⟨rfl, rfl, by simp [BufferManager.create, BufferManager.get_lru_list],
    fun _ => by simp [BufferManager.create, BufferManager.get_lru_list,
      BufferManager.get_fifo_list]⟩

theorem Inv_fix_page {s s1 : BufferManager} {page_id : Nat} {e : Bool} (hI : Inv s)
    (h : (fix_page s page_id e).state? = some s1) : Inv s1 := by
  obtain ⟨h5, _, hs⟩ := fix_page_shape h
  obtain ⟨i1, i2, i3, i4⟩ := hI
  simp only [BufferManager.get_fifo_list, BufferManager.get_lru_list] at i3 i4
  cases hs with
  | same a b c d =>
    exact ⟨by rw [a, c, i1], by rw [b, d, i2],
      by simpa [BufferManager.get_lru_list, b] using i3,
      by simpa [BufferManager.get_lru_list, BufferManager.get_fifo_list, a, b, h5] using i4⟩
  | first f a b c d e1 e2 e3 e4 =>
    refine ⟨?_, by rw [e2, e4, i2, b], by simp [BufferManager.get_lru_list, e2],
      fun _ => by simp [BufferManager.get_lru_list, BufferManager.get_fifo_list, e1, e2]⟩
    rw [e1, e3, i1, a, ← c]; rfl
  | hit f p a b c d e1 e2 e3 e4 =>
    rw [i2] at a
    obtain ⟨hlt, hmem, hids⟩ := ids_eraseIdx_lookup a
    have hl : s1.get_lru_list = (s.lru.map (·.getPageID)).erase page_id ++ [page_id] := by
      simp [BufferManager.get_lru_list, e1, hids, c]
    have hperm : List.Perm s1.get_lru_list (s.lru.map (·.getPageID)) := by
      rw [hl]
      exact (List.perm_append_singleton _ _).trans (List.perm_cons_erase hmem).symm
    refine ⟨by rw [e3, e4, i1], e2, hperm.nodup_iff.mpr i3, ?_⟩
    intro hlt2
    have hlen : s1.lru.length = s.lru.length := by
      have := length_eraseIdx_add_one s.lru p hlt
      rw [e1]; simp; omega
    rw [hlen, e3, h5] at hlt2
    have := i4 hlt2
    have hp2 : List.Perm (s1.get_fifo_list ++ s1.get_lru_list)
        (s.fifo.map (·.getPageID) ++ s.lru.map (·.getPageID)) := by
      simp only [BufferManager.get_fifo_list, e3]
      exact List.Perm.append_left _ hperm
    exact hp2.nodup_iff.mpr this
  | promote f p a b c d e1 e2 e3 e4 e5 e6 =>
    rw [i1] at b
    rw [i2] at a
    obtain ⟨hlt, hmem, hids⟩ := ids_eraseIdx_lookup b
    have hnl : page_id ∉ s.lru.map (·.getPageID) := lookup_reassign_eq_none.mp a
    have hnd := i4 d
    have hl : s1.get_lru_list = s.lru.map (·.getPageID) ++ [page_id] := by
      simp [BufferManager.get_lru_list, e5, e1]
    have hf : s1.get_fifo_list = (s.fifo.map (·.getPageID)).erase page_id := by
      simp [BufferManager.get_fifo_list, e3, hids]
    have hperm : List.Perm (s1.get_fifo_list ++ s1.get_lru_list)
        (s.fifo.map (·.getPageID) ++ s.lru.map (·.getPageID)) := by
      rw [hl, hf, ← List.append_assoc]
      refine (List.perm_append_singleton _ _).trans ?_
      rw [← List.cons_append]
      exact List.Perm.append_right _ (List.perm_cons_erase hmem).symm
    have hnd1 : (s1.get_fifo_list ++ s1.get_lru_list).Nodup := hperm.nodup_iff.mpr hnd
    refine ⟨e4, ?_, (List.nodup_append.mp hnd1).2.1, fun _ => hnd1⟩
    rw [e6, e5, i2, reassign_append, e1]
  | evict_lru f i p dirty a b c d e1 e2 e3 e4 e5 e6 =>
    rw [i2] at a
    have hnl : page_id ∉ s.lru.map (·.getPageID) := lookup_reassign_eq_none.mp a
    have hlt := findUnfixed_lt d
    have hsub : List.Sublist ((s.lru.eraseIdx i).map (·.getPageID)) (s.lru.map (·.getPageID)) :=
      (List.eraseIdx_sublist s.lru i).map _
    refine ⟨by rw [e5, e6, i1], e4, ?_, ?_⟩
    · simp only [BufferManager.get_lru_list, e3, List.map_append, List.map_cons, List.map_nil, e1]
      refine List.nodup_append.mpr ⟨hsub.nodup i3, by simp, ?_⟩
      intro x hx hx2
      simp at hx2; subst hx2
      exact hnl (hsub.subset hx)
    · intro hlt2
      have := length_eraseIdx_add_one s.lru i hlt
      rw [e3, e5, h5] at hlt2
      simp at hlt2
      omega
  | append_fifo f a b c d e1 e2 e3 e4 e5 =>
    rw [i1] at b
    rw [i2] at a
    have hnl : page_id ∉ s.lru.map (·.getPageID) := lookup_reassign_eq_none.mp a
    have hnf : page_id ∉ s.fifo.map (·.getPageID) := lookup_reassign_eq_none.mp b
    have hnd := i4 c
    refine ⟨by rw [e3, e2, i1, reassign_append, d], by rw [e4, e5, i2],
      by simpa [BufferManager.get_lru_list, e4] using i3, fun _ => ?_⟩
    simp only [BufferManager.get_fifo_list, BufferManager.get_lru_list, e2, e4, List.map_append,
      List.map_cons, List.map_nil, d]
    have hperm : List.Perm (s.fifo.map (·.getPageID) ++ [page_id] ++ s.lru.map (·.getPageID))
        (page_id :: (s.fifo.map (·.getPageID) ++ s.lru.map (·.getPageID))) := by
      rw [← List.cons_append]
      exact List.Perm.append_right _ (List.perm_append_singleton _ _)
    refine hperm.nodup_iff.mpr (List.nodup_cons.mpr ⟨?_, hnd⟩)
    simp only [List.mem_append, not_or]
    exact ⟨hnf, hnl⟩
  | evict_fifo f i dirty a b c d e1 e2 e3 e4 e5 =>
    have hlt := findUnfixed_lt c
    refine ⟨e3, by rw [e4, e5, i2], by simpa [BufferManager.get_lru_list, e4] using i3, ?_⟩
    intro hlt2
    have := length_eraseIdx_add_one s.fifo i hlt
    rw [e2, e4, h5] at hlt2
    simp at hlt2
    omega

theorem Inv_unfix_page {s s1 : BufferManager} {page : BufferFrame} {d : Bool} (hI : Inv s)
    (h : unfix_page s page d = some s1) : Inv s1 := by
  obtain ⟨h1, h2, h3, h4, h5, _, _⟩ := unfix_page_state h
  obtain ⟨i1, i2, i3, i4⟩ := hI
  have hf := unfix_in_ids h1
  have hl := unfix_in_ids h2
  refine ⟨by rw [h3, i1]; exact reassign_congr _ _ hf.symm,
    by rw [h4, i2]; exact reassign_congr _ _ hl.symm, ?_, ?_⟩
  · simpa [BufferManager.get_lru_list, hl] using i3
  · intro hlt
    rw [unfix_in_length h1, unfix_in_length h2, h5] at hlt
    simpa [BufferManager.get_lru_list, BufferManager.get_fifo_list, hl, hf] using i4 hlt

theorem Inv_step (s : BufferManager) (c : Call) (s1 : BufferManager) (hI : Inv s)
    (h : step s c = some s1) : Inv s1 := by
  cases c with
  | fix_page page_id e => exact Inv_fix_page hI (step_fix_page h)
  | unfix_page page d => exact Inv_unfix_page hI h

theorem Inv_run {page_size page_count : Nat} {disk : File} {calls : List Call}
    {s : BufferManager}
    (h : run (BufferManager.create page_size page_count disk) calls = some s) : Inv s :=
  run_induction Inv Inv_step calls _ s (Inv_create _ _ _) h

theorem pageCount_run {page_size page_count : Nat} {disk : File} {calls : List Call}
    {s : BufferManager}
    (h : run (BufferManager.create page_size page_count disk) calls = some s) :
    s.pageCount = page_count := by
  refine run_induction (fun t => t.pageCount = page_count) ?_ calls _ s rfl h
  intro t c t1 ht hstep
  cases c with
  | fix_page page_id e => rw [(fix_page_shape (step_fix_page hstep)).1, ht]
  | unfix_page page d =>
    obtain ⟨_, _, _, _, h5, _, _⟩ := unfix_page_state hstep
    rw [h5, ht]

/-! ## The paths of `fix_page`, taken with a free page lock -/

theorem fix_page_unlocked (s : BufferManager) (page_id : Nat) (e : Bool)
    (hm : s.page_mutex = .unlocked) :
    fix_page s page_id e =
      fix_page_locked { s with disk := (fix_page_read s page_id).1,
                               page_mutex := if e then .exclusive else .shared 0 }
        (fix_page_newPage s.pageSize page_id e (fix_page_read s page_id).2) page_id e := by
  cases e <;> simp [fix_page, hm, shared_mutex.lock, shared_mutex.lock_shared]

theorem return_back_eq (s : BufferManager) (e : Bool) (f : BufferFrame)
    (hm : s.page_mutex = if e then .exclusive else .shared 0) :
    return_back s e f = .ok { s with page_mutex := heldAfter e } f := by
  obtain ⟨fifo, lru, ps, pc, m, fm, lm, d⟩ := s
  simp only at hm
  subst hm
  cases e <;> simp [return_back, heldAfter, shared_mutex.unlock_shared]

/-- Lines 92-108 with a free lock: the frame at the position stored in `lruMap` is erased
and a new frame, with its dirty flag and bytes, is pushed to the back of LRU. -/
theorem fix_page_hit_eq (s : BufferManager) (page_id : Nat) (e : Bool) (position : Nat)
    (old : BufferFrame) (hm : s.page_mutex = .unlocked)
    (hl : s.lruMap.lookup page_id = some position) (hold : s.lru[position]? = some old) :
    fix_page s page_id e =
      .ok { s with
            lru := s.lru.eraseIdx position ++
              [((fix_page_newPage s.pageSize page_id e []).setDirty old.getDirty).setFrameVector
                old.getFrameVector],
            lruMap := reassign (s.lru.eraseIdx position ++
              [((fix_page_newPage s.pageSize page_id e []).setDirty old.getDirty).setFrameVector
                old.getFrameVector]),
            page_mutex := heldAfter e }
        (((fix_page_newPage s.pageSize page_id e []).setDirty old.getDirty).setFrameVector
          old.getFrameVector) := by
  have hne : ¬ (s.fifo.length = 0 ∧ s.lru.length = 0) := by
    rintro ⟨_, h0⟩
    rw [List.length_eq_zero.mp h0] at hold
    simp at hold
  have hr : fix_page_read s page_id = (s.disk, []) := by simp [fix_page_read, hl]
  rw [fix_page_unlocked s page_id e hm, hr]
  unfold fix_page_locked
  simp only [hne, if_false, hl, hold]
  rw [return_back_eq _ _ _ rfl]

/-- Lines 113-131 with a free lock: promotion while the pool is not full. -/
theorem fix_page_promote_eq (s : BufferManager) (page_id : Nat) (e : Bool) (position : Nat)
    (old : BufferFrame) (hm : s.page_mutex = .unlocked)
    (hl : s.lruMap.lookup page_id = none) (hf : s.fifoMap.lookup page_id = some position)
    (hold : s.fifo[position]? = some old)
    (hlt : s.lru.length + s.fifo.length < s.pageCount) :
    fix_page s page_id e =
      .ok { s with
            fifo := s.fifo.eraseIdx position,
            fifoMap := reassign (s.fifo.eraseIdx position),
            lru := s.lru ++
              [((fix_page_newPage s.pageSize page_id e []).setDirty old.getDirty).setFrameVector
                old.getFrameVector],
            lruMap := s.lruMap.insert page_id s.lru.length,
            page_mutex := heldAfter e }
        (((fix_page_newPage s.pageSize page_id e []).setDirty old.getDirty).setFrameVector
          old.getFrameVector) := by
  have hne : ¬ (s.fifo.length = 0 ∧ s.lru.length = 0) := by
    rintro ⟨h0, _⟩
    rw [List.length_eq_zero.mp h0] at hold
    simp at hold
  have hr : fix_page_read s page_id = (s.disk, []) := by simp [fix_page_read, hf]
  rw [fix_page_unlocked s page_id e hm, hr]
  unfold fix_page_locked
  simp only [hne, if_false, hl, hf]
  unfold fix_page_promote
  simp only [hlt, if_true, hold]
  rw [return_back_eq _ _ _ rfl]
  simp

/-- Lines 81-89 and 183-192 with a free lock: a page that is in neither map goes to the
back of FIFO while the pool is not full. -/
theorem fix_page_append_eq (s : BufferManager) (page_id : Nat) (e : Bool)
    (hm : s.page_mutex = .unlocked)
    (hl : s.lruMap.lookup page_id = none) (hf : s.fifoMap.lookup page_id = none)
    (hlt : s.lru.length + s.fifo.length < s.pageCount) :
    fix_page s page_id e =
      .ok { s with
            fifo := s.fifo ++
              [fix_page_newPage s.pageSize page_id e (fix_page_read s page_id).2],
            fifoMap := s.fifoMap.insert page_id s.fifo.length,
            disk := (fix_page_read s page_id).1,
            page_mutex := heldAfter e }
        (fix_page_newPage s.pageSize page_id e (fix_page_read s page_id).2) := by
  rw [fix_page_unlocked s page_id e hm]
  unfold fix_page_locked
  by_cases hne : s.fifo.length = 0 ∧ s.lru.length = 0
  · simp only [hne, and_self, if_true]
    rw [return_back_eq _ _ _ rfl]
  · simp only [hne, if_false, hl, hf]
    unfold fix_page_fifo
    simp only [hlt, if_true]
    rw [return_back_eq _ _ _ rfl]
    simp

/-- Lines 195-210 with a free lock: a page that is in neither map, the pool full, an
unfixed clean frame in FIFO at index `i`. -/
theorem fix_page_evict_clean_eq (s : BufferManager) (page_id : Nat) (e : Bool) (i : Nat)
    (hm : s.page_mutex = .unlocked)
    (hl : s.lruMap.lookup page_id = none) (hf : s.fifoMap.lookup page_id = none)
    (hfull : ¬ s.lru.length + s.fifo.length < s.pageCount)
    (hi : findUnfixed false s.fifo = some i) :
    fix_page s page_id e =
      .ok { s with
            fifo := s.fifo.eraseIdx i ++
              [fix_page_newPage s.pageSize page_id e (fix_page_read s page_id).2],
            fifoMap := reassign (s.fifo.eraseIdx i ++
              [fix_page_newPage s.pageSize page_id e (fix_page_read s page_id).2]),
            disk := (fix_page_read s page_id).1,
            page_mutex := heldAfter e }
        (fix_page_newPage s.pageSize page_id e (fix_page_read s page_id).2) := by
  have hne : ¬ (s.fifo.length = 0 ∧ s.lru.length = 0) := by
    rintro ⟨h0, _⟩
    have := findUnfixed_lt hi
    omega
  rw [fix_page_unlocked s page_id e hm]
  unfold fix_page_locked
  simp only [hne, if_false, hl, hf]
  unfold fix_page_fifo
  simp only [hfull, if_false, hi]
  rw [return_back_eq _ _ _ rfl]

/-- Lines 242-248 with a free lock: a page that is in neither map, the pool full and not
empty, no frame of FIFO with `getCounter() == 0`. -/
theorem fix_page_full_eq (s : BufferManager) (page_id : Nat) (e : Bool)
    (hm : s.page_mutex = .unlocked)
    (hl : s.lruMap.lookup page_id = none) (hf : s.fifoMap.lookup page_id = none)
    (hne : ¬ (s.fifo.length = 0 ∧ s.lru.length = 0))
    (hfull : ¬ s.lru.length + s.fifo.length < s.pageCount)
    (h0 : findUnfixed false s.fifo = none) (h1 : findUnfixed true s.fifo = none) :
    fix_page s page_id e =
      .buffer_full_error { s with disk := (fix_page_read s page_id).1 } := by
  rw [fix_page_unlocked s page_id e hm]
  unfold fix_page_locked
  simp only [hne, if_false, hl, hf]
  unfold fix_page_fifo
  simp only [hfull, if_false, h0, h1]
  obtain ⟨fifo, lru, ps, pc, m, fm, lm, d⟩ := s
  simp only at hm
  subst hm
  cases e <;> simp [shared_mutex.unlock, shared_mutex.unlock_shared]

/-! ## `buffer_full_error` leaves everything as it was -/

theorem return_back_ne_full (s s1 : BufferManager) (e : Bool) (f : BufferFrame) :
    return_back s e f ≠ .buffer_full_error s1 := by
  unfold return_back
  split
  · simp
  · split <;> simp

theorem write_back_ne_full (s s1 : BufferManager) (e : Bool) (id : Nat) (vec : List Nat)
    (f : BufferFrame) : write_back s e id vec f ≠ .buffer_full_error s1 := by
  unfold write_back
  split
  · simp
  · simp only
    split
    · split
      · split <;> simp
      · simp
    · simp

theorem fix_page_fifo_full {s s1 : BufferManager} {f : BufferFrame} {page_id : Nat} {e : Bool}
    (h : fix_page_fifo s f page_id e = .buffer_full_error s1) :
    ∃ m, (if e then s.page_mutex.unlock else s.page_mutex.unlock_shared) = some m ∧
      s1 = { s with page_mutex := m } := by
  unfold fix_page_fifo at h
  split at h
  · exact absurd h (return_back_ne_full _ _ _ _)
  · split at h
    · exact absurd h (return_back_ne_full _ _ _ _)
    · split at h
      · split at h
        · simp at h
        · exact absurd h (write_back_ne_full _ _ _ _ _ _)
      · split at h
        · next m hm =>
          simp only [FixResult.buffer_full_error.injEq] at h
          exact ⟨m, hm, h.symm⟩
        · simp at h

theorem fix_page_locked_full {s s1 : BufferManager} {f : BufferFrame} {page_id : Nat} {e : Bool}
    (h : fix_page_locked s f page_id e = .buffer_full_error s1) :
    ∃ m, (if e then s.page_mutex.unlock else s.page_mutex.unlock_shared) = some m ∧
      s1 = { s with page_mutex := m } := by
  unfold fix_page_locked at h
  split at h
  · exact absurd h (return_back_ne_full _ _ _ _)
  · split at h
    · split at h
      · simp at h
      · exact absurd h (return_back_ne_full _ _ _ _)
    · split at h
      · split at h
        · next r hr =>
          unfold fix_page_promote at hr
          split at hr
          · split at hr
            · simp at hr; subst hr; simp at h
            · simp only [Option.some.injEq] at hr; subst hr
              exact absurd h (return_back_ne_full _ _ _ _)
          · split at hr
            · simp only [Option.some.injEq] at hr; subst hr
              exact absurd h (return_back_ne_full _ _ _ _)
            · split at hr
              · split at hr
                · simp at hr; subst hr; simp at h
                · simp only [Option.some.injEq] at hr; subst hr
                  exact absurd h (write_back_ne_full _ _ _ _ _ _)
              · simp at hr
        · exact fix_page_fifo_full h
      · exact fix_page_fifo_full h

theorem fix_page_read_disk (s : BufferManager) (page_id : Nat) :
    (fix_page_read s page_id).1.blocks = s.disk.blocks ∧
    (fix_page_read s page_id).1.faulty = s.disk.faulty ∧
    (fix_page_read s page_id).1.log.filter IOEvent.isWrite =
      s.disk.log.filter IOEvent.isWrite := by
  unfold fix_page_read
  split <;> simp [File.read_block, IOEvent.isWrite]

/-- C6. `buffer_full_error` is atomic: when `fix_page(page_id, exclusive)` throws
`buffer_full_error`, in whatever state, the FIFO and LRU vectors (hence every frame with
its dirty flag, counter and bytes), both index maps and the page lock are as before the
call, and no `write_block` has been issued: the write events of the device log and the
blocks on the device are those before the call. -/
theorem buffer_full_atomic (s s1 : BufferManager) (page_id : Nat) (exclusive : Bool)
    (h : fix_page s page_id exclusive = .buffer_full_error s1) :
    s1.fifo = s.fifo ∧ s1.lru = s.lru ∧ s1.fifoMap = s.fifoMap ∧ s1.lruMap = s.lruMap ∧
    s1.page_mutex = s.page_mutex ∧
    s1.disk.log.filter IOEvent.isWrite = s.disk.log.filter IOEvent.isWrite ∧
    s1.disk.blocks = s.disk.blocks := by
  unfold fix_page at h
  simp only at h
  split at h
  · simp at h
  · next m hm =>
    obtain ⟨m2, hm2, rfl⟩ := fix_page_locked_full h
    obtain ⟨hb, _, hlog⟩ := fix_page_read_disk s page_id
    refine ⟨rfl, rfl, rfl, rfl, ?_, hlog, hb⟩
    simp only at hm2 ⊢
    cases exclusive
    · simp only [Bool.false_eq_true, if_false] at hm hm2
      have := unlock_shared_lock_shared hm
      rw [this] at hm2
      exact (Option.some.inj hm2).symm
    · simp only [if_true] at hm hm2
      have := unlock_lock hm
      rw [this] at hm2
      exact (Option.some.inj hm2).symm

/-! ## Pin safety for the counter the code keeps -/

theorem mem_eraseIdx_findUnfixed {dirty : Bool} {v : List BufferFrame} {i : Nat}
    {f : BufferFrame} (h : findUnfixed dirty v = some i) (hf : f ∈ v)
    (hc : f.getCounter ≠ 0) : f ∈ v.eraseIdx i := by
  obtain ⟨pre, x, post, hv, hl, hx, _⟩ := firstIdx_eq_some h
  subst hv hl
  rw [eraseIdx_split]
  simp only [Bool.and_eq_true, decide_eq_true_eq] at hx
  simp only [List.mem_append, List.mem_cons] at hf ⊢
  rcases hf with hf | rfl | hf
  · exact Or.inl hf
  · exact absurd hx.1 hc
  · exact Or.inr hf

theorem lookup_reassign_of_mem {v : List BufferFrame} {k : Nat}
    (h : k ∈ v.map (·.getPageID)) : ∃ i, List.lookup k (reassign v) = some i := by
  cases hl : List.lookup k (reassign v) with
  | none => exact absurd h (lookup_reassign_eq_none.mp hl)
  | some i => exact ⟨i, rfl⟩

/-- A page with a frame whose counter is not zero keeps a frame through `fix_page`. -/
theorem fix_page_keeps_fixed {s s1 : BufferManager} {page_id : Nat} {e : Bool} (hI : Inv s)
    (h : (fix_page s page_id e).state? = some s1) {f : BufferFrame}
    (hf : f ∈ s.fifo ++ s.lru) (hc : f.getCounter ≠ 0) :
    f.getPageID ∈ s1.get_fifo_list ++ s1.get_lru_list := by
  obtain ⟨_, _, hs⟩ := fix_page_shape h
  obtain ⟨i1, i2, _, _⟩ := hI
  have key : ∀ (a b : List BufferFrame), f ∈ a ++ b →
      f.getPageID ∈ a.map (·.getPageID) ++ b.map (·.getPageID) := by
    intro a b hab
    rw [← List.map_append]
    exact List.mem_map_of_mem _ hab
  have keyErase : ∀ (v : List BufferFrame), f ∈ v → f.getPageID ≠ page_id →
      f.getPageID ∈ (v.map (·.getPageID)).erase page_id := by
    intro v hv hne
    exact (List.mem_erase_of_ne hne).mpr (List.mem_map_of_mem _ hv)
  simp only [BufferManager.get_fifo_list, BufferManager.get_lru_list]
  rw [List.mem_append] at hf
  cases hs with
  | same a b c d => rw [a, b]; exact key _ _ (List.mem_append.mpr hf)
  | first g a b c d e1 e2 e3 e4 => rw [a, b] at hf; simp at hf
  | hit g p a b c d e1 e2 e3 e4 =>
    rw [i2] at a
    obtain ⟨_, _, hids⟩ := ids_eraseIdx_lookup a
    rw [e1, e3, List.map_append, hids]
    by_cases hne : f.getPageID = page_id
    · simp [hne, c]
    · rcases hf with hf | hf
      · exact List.mem_append_left _ (List.mem_map_of_mem _ hf)
      · exact List.mem_append_right _ (List.mem_append_left _ (keyErase _ hf hne))
  | promote g p a b c d e1 e2 e3 e4 e5 e6 =>
    rw [i1] at b
    obtain ⟨_, _, hids⟩ := ids_eraseIdx_lookup b
    rw [e3, e5, List.map_append, hids]
    by_cases hne : f.getPageID = page_id
    · simp [hne, e1]
    · rcases hf with hf | hf
      · exact List.mem_append_left _ (keyErase _ hf hne)
      · exact List.mem_append_right _ (List.mem_append_left _ (List.mem_map_of_mem _ hf))
  | evict_lru g i p dirty a b c d e1 e2 e3 e4 e5 e6 =>
    rw [e3, e5]
    rcases hf with hf | hf
    · exact List.mem_append_left _ (List.mem_map_of_mem _ hf)
    · refine List.mem_append_right _ (List.mem_map_of_mem _ ?_)
      exact List.mem_append_left _ (mem_eraseIdx_findUnfixed d hf hc)
  | append_fifo g a b c d e1 e2 e3 e4 e5 =>
    rw [e2, e4]
    rcases hf with hf | hf
    · exact List.mem_append_left _ (List.mem_map_of_mem _ (List.mem_append_left _ hf))
    · exact List.mem_append_right _ (List.mem_map_of_mem _ hf)
  | evict_fifo g i dirty a b c d e1 e2 e3 e4 e5 =>
    rw [e2, e4]
    rcases hf with hf | hf
    · refine List.mem_append_left _ (List.mem_map_of_mem _ ?_)
      exact List.mem_append_left _ (mem_eraseIdx_findUnfixed c hf hc)
    · exact List.mem_append_right _ (List.mem_map_of_mem _ hf)

/-- The frame a call of `fix_page` returns is for the page asked for, with counter 1. -/
theorem fix_page_frame {s : BufferManager} {page_id : Nat} {e : Bool} {frame : BufferFrame}
    (h : (fix_page s page_id e).frame? = some frame) :
    frame.getPageID = page_id ∧ frame.getCounter = 1 := by
  have hrb : ∀ (t : BufferManager) (g : BufferFrame), (return_back t e g).frame? = some frame →
      g = frame := by
    intro t g hg
    unfold return_back at hg
    split at hg
    · simpa [FixResult.frame?] using hg
    · split at hg <;> simp [FixResult.frame?] at hg
      exact hg
  have hwb : ∀ (t : BufferManager) (id : Nat) (vec : List Nat) (g : BufferFrame),
      (write_back t e id vec g).frame? = some frame → g = frame := by
    intro t id vec g hg
    unfold write_back at hg
    split at hg
    · simp [FixResult.frame?] at hg
    · simp only at hg
      split at hg
      · split at hg
        · split at hg <;> simp [FixResult.frame?] at hg
          exact hg
        · simpa [FixResult.frame?] using hg
      · simp [FixResult.frame?] at hg
  have hfifo : ∀ (t : BufferManager) (g : BufferFrame),
      (fix_page_fifo t g page_id e).frame? = some frame → g = frame := by
    intro t g hg
    unfold fix_page_fifo at hg
    split at hg
    · exact hrb _ _ hg
    · split at hg
      · exact hrb _ _ hg
      · split at hg
        · split at hg
          · simp [FixResult.frame?] at hg
          · exact hwb _ _ _ _ hg
        · split at hg <;> simp [FixResult.frame?] at hg
  have hlocked : ∀ (t : BufferManager) (g : BufferFrame),
      (fix_page_locked t g page_id e).frame? = some frame →
      frame.getPageID = g.getPageID ∧ frame.getCounter = g.getCounter := by
    intro t g hg
    unfold fix_page_locked at hg
    split at hg
    · rw [← hrb _ _ hg]; exact ⟨rfl, rfl⟩
    · split at hg
      · split at hg
        · simp [FixResult.frame?] at hg
        · rw [← hrb _ _ hg]; exact ⟨rfl, rfl⟩
      · split at hg
        · split at hg
          · next r hr =>
            unfold fix_page_promote at hr
            split at hr
            · split at hr
              · simp at hr; subst hr; simp [FixResult.frame?] at hg
              · simp only [Option.some.injEq] at hr; subst hr
                rw [← hrb _ _ hg]; exact ⟨rfl, rfl⟩
            · split at hr
              · simp only [Option.some.injEq] at hr; subst hr
                rw [← hrb _ _ hg]; exact ⟨rfl, rfl⟩
              · split at hr
                · split at hr
                  · simp at hr; subst hr; simp [FixResult.frame?] at hg
                  · simp only [Option.some.injEq] at hr; subst hr
                    rw [← hwb _ _ _ _ hg]; exact ⟨rfl, rfl⟩
                · simp at hr
          · rw [← hfifo _ _ hg]; exact ⟨rfl, rfl⟩
        · rw [← hfifo _ _ hg]; exact ⟨rfl, rfl⟩
  unfold fix_page at h
  simp only at h
  split at h
  · simp [FixResult.frame?] at h
  · obtain ⟨h1, h2⟩ := hlocked _ _ h
    rw [h1, h2]
    exact ⟨newPage_pageID _ _ _ _, newPage_counter _ _ _ _⟩

theorem find?_set_split (k : Nat) (pre post : List BufferFrame) (x y : BufferFrame)
    (hy : y.getPageID = k) (hpre : k ∉ pre.map (·.getPageID)) :
    ((pre ++ x :: post).set pre.length y).find? (fun f => f.getPageID == k) = some y := by
  induction pre with
  | nil => simp [hy]
  | cons a pre ih =>
    simp only [List.map_cons, List.mem_cons, not_or] at hpre
    have ha : (a.getPageID == k) = false := by simpa using fun h => hpre.1 h.symm
    simp only [List.cons_append, List.length_cons, List.set_cons_succ, List.find?_cons, ha]
    exact ih hpre.2

/-- What `unfix_page` does to the first frame of the page in a vector whose map is
consistent: counter `0`, dirty flag `is_dirty`. -/
theorem unfix_in_first {v v1 : List BufferFrame} {k : Nat} {d : Bool}
    (h : unfix_in v (reassign v) k d = some v1) (hk : k ∈ v.map (·.getPageID)) :
    ∃ f, v1.find? (fun f => f.getPageID == k) = some f ∧ f.getCounter = 0 ∧
      f.getDirty = d := by
  obtain ⟨i, hi⟩ := lookup_reassign_of_mem hk
  obtain ⟨pre, x, post, hv, hl, hx, hpre⟩ := lookup_reassign_eq_some hi
  unfold unfix_in at h
  rw [hi] at h
  simp only at h
  subst hl
  have hx2 : v[pre.length]? = some x := by rw [hv]; exact getElem?_split pre post x
  rw [hx2] at h
  simp only [Option.some.injEq] at h
  subst h
  refine ⟨(x.setCounter).setDirty d, ?_, rfl, rfl⟩
  rw [hv]
  exact find?_set_split k pre post x _ hx hpre

/-! ## Shared fixes of distinct pages on a pool with room -/

theorem run_fix_shared (ids : List Nat) :
    ∀ (s : BufferManager), AllFixed s → (s.get_fifo_list ++ ids).Nodup →
      s.fifo.length + ids.length ≤ s.pageCount →
      ∃ s1, run s (ids.map (fun id => Call.fix_page id false)) = some s1 ∧ AllFixed s1 ∧
        s1.get_fifo_list = s.get_fifo_list ++ ids ∧ s1.pageCount = s.pageCount := by
  induction ids with
  | nil => intro s hs _ _; exact ⟨s, rfl, hs, by simp, rfl⟩
  | cons id ids ih =>
    intro s hs hnd hlen
    obtain ⟨hm, hfm, hlm, hl, hc⟩ := hs
    have hid : id ∉ s.fifo.map (·.getPageID) := by
      intro hmem
      have := (List.nodup_append.mp hnd).2.2
      exact this hmem (by simp)
    have hlf : s.fifoMap.lookup id = none := by rw [hfm]; exact lookup_reassign_eq_none.mpr hid
    have hll : s.lruMap.lookup id = none := by rw [hlm]; rfl
    have hlt : s.lru.length + s.fifo.length < s.pageCount := by
      rw [hl]; simp at hlen ⊢; omega
    have hfix := fix_page_append_eq s id false hm hll hlf hlt
    obtain ⟨s1, hrun, hs1, hlist, hpc⟩ := ih
      { s with
        fifo := s.fifo ++ [fix_page_newPage s.pageSize id false (fix_page_read s id).2],
        fifoMap := s.fifoMap.insert id s.fifo.length,
        disk := (fix_page_read s id).1,
        page_mutex := heldAfter false }
      ⟨rfl, by simp only [reassign_append, newPage_pageID, hfm], hlm, hl, by
        intro f hf
        simp only [List.mem_append, List.mem_singleton] at hf
        rcases hf with hf | rfl
        · exact hc f hf
        · exact newPage_counter _ _ _ _⟩
      (by
        simp only [BufferManager.get_fifo_list, List.map_append, List.map_cons, List.map_nil,
          newPage_pageID]
        simpa [BufferManager.get_fifo_list] using hnd)
      (by simp at hlen ⊢; omega)
    refine ⟨s1, ?_, hs1, ?_, hpc⟩
    · simp only [List.map_cons, run, step, hfix]
      exact hrun
    · rw [hlist]
      simp [BufferManager.get_fifo_list, newPage_pageID]

theorem AllFixed_create (page_size page_count : Nat) (disk : File) :
    AllFixed (BufferManager.create page_size page_count disk) :=
  ⟨rfl, rfl, rfl, rfl, by simp [BufferManager.create]⟩

/-! ## Queue exclusivity and the dirty flag: where the code departs from the claims -/

/-- C2 (fails on the code). With `page_count = 2`: `fix_page(1)`, `fix_page(1)` (page 1 is
promoted), `unfix_page(1)`, `fix_page(2)`, then `fix_page(2)` with the pool full: lines
134-149 replace the unfixed page 1 in LRU by page 2 and leave page 2 in FIFO, so page 2
is in both queues.  Without the promotion of page 1 (`fix_page(1)`, `unfix_page(1)`,
`fix_page(2)`, `fix_page(2)`), lines 195-210 push page 2 a second time: FIFO is `[2, 2]`. -/
theorem fix_page_duplicates_page :
    (run (BufferManager.create 64 2 emptyDisk)
        [.fix_page 1 false, .fix_page 1 false, .unfix_page (pageRef 1 false) false,
         .fix_page 2 false, .fix_page 2 false]).map
      (fun s => (s.get_fifo_list, s.get_lru_list)) = some ([2], [2]) ∧
    (run (BufferManager.create 64 2 emptyDisk)
        [.fix_page 1 false, .unfix_page (pageRef 1 false) false,
         .fix_page 2 false, .fix_page 2 false]).map
      (fun s => (s.get_fifo_list, s.get_lru_list)) = some ([2, 2], []) := by
  decide

/-- C4 (fails on the code). Page 1 is fixed exclusively and unfixed with `is_dirty = true`:
its frame is dirty.  It is fixed again (the promotion carries the flag over) and unfixed
with `is_dirty = false`: `setDirty(is_dirty)` stores `false`, the frame is clean, and the
destructor or an eviction will not write it. -/
theorem unfix_page_clears_dirty :
    (run (BufferManager.create 64 2 emptyDisk)
        [.fix_page 1 true, .unfix_page (pageRef 1 true) true, .fix_page 1 false]).map
      (fun s => (s.get_lru_list, s.lru.map (·.getDirty))) = some ([1], [true]) ∧
    (run (BufferManager.create 64 2 emptyDisk)
        [.fix_page 1 true, .unfix_page (pageRef 1 true) true, .fix_page 1 false,
         .unfix_page (pageRef 1 false) false]).map
      (fun s => (s.get_lru_list, s.lru.map (·.getDirty))) = some ([1], [false]) := by
  decide

/-! ## C1 -/

/-- C1 at a concrete input: a pool of two frames and three shared fixes, the third of
which throws. -/
theorem capacity_bound_witness :
    1 ≤ 2 ∧
    run (BufferManager.create 64 2 emptyDisk)
      [.fix_page 1 false, .fix_page 2 false, .fix_page 3 false] = some capacityDemo ∧
    capacityDemo.get_fifo_list.length + capacityDemo.get_lru_list.length ≤ 2 :=
  ⟨by decide, by decide,
    capacity_bound 64 2 emptyDisk [.fix_page 1 false, .fix_page 2 false, .fix_page 3 false]
      capacityDemo (by decide) (by decide)⟩

/-! ## C3: pin safety -/

/-- C3 (as stated, fails on the code). On a pool of two frames, after `fix_page(1)`,
`fix_page(1)`, `unfix_page(1)`, `fix_page(2)` page 1 has one outstanding fix (two fixes, one
unfix) and is in LRU, yet its counter is `0`: the second `fix_page(1)` left the counter at
`1` and the one `unfix_page` set it to `0`.  The next call `fix_page(2)` returns a frame and
removes page 1 from the pool. -/
theorem outstanding_fix_evicted :
    outstanding 1 (BufferManager.create 64 2 emptyDisk)
      [.fix_page 1 false, .fix_page 1 false, .unfix_page (pageRef 1 false) false,
       .fix_page 2 false] = 1 ∧
    (run (BufferManager.create 64 2 emptyDisk)
        [.fix_page 1 false, .fix_page 1 false]).map
      (fun s => (s.get_lru_list, s.lru.map (·.getCounter))) = some ([1], [1]) ∧
    (run (BufferManager.create 64 2 emptyDisk)
        [.fix_page 1 false, .fix_page 1 false, .unfix_page (pageRef 1 false) false,
         .fix_page 2 false]).map
      (fun s => (s.get_fifo_list, s.get_lru_list, s.lru.map (·.getCounter))) =
      some ([2], [1], [0]) ∧
    (run (BufferManager.create 64 2 emptyDisk)
        [.fix_page 1 false, .fix_page 1 false, .unfix_page (pageRef 1 false) false,
         .fix_page 2 false]).map
      (fun s => (fix_page s 2 false).outcome) = some Outcome.ok ∧
    (run (BufferManager.create 64 2 emptyDisk)
        [.fix_page 1 false, .fix_page 1 false, .unfix_page (pageRef 1 false) false,
         .fix_page 2 false, .fix_page 2 false]).map
      (fun s => s.get_fifo_list ++ s.get_lru_list) = some [2, 2] := by
  refine ⟨by decide, by decide, by decide, by decide, by decide⟩

/-- C3, amended. Pin safety holds for the counter the code keeps, which is a flag and not a
count of fixes.  In every state reached from a newly constructed manager by `fix_page` and
`unfix_page` calls:
* a page with a frame in FIFO or LRU whose counter is not `0` is still in FIFO or LRU after
  any call of `fix_page`, however that call ends;
* the frame that `fix_page` returns, also for a page already resident, is a frame for that
  page with counter `1`: the counter is not incremented;
* `unfix_page` leaves the first frame of the page in FIFO, and in LRU, with counter `0`,
  whatever the counter was. -/
theorem pin_safety_counter (page_size page_count : Nat) (disk : File) (calls : List Call)
    (s : BufferManager)
    (hrun : run (BufferManager.create page_size page_count disk) calls = some s) :
    (∀ (page_id : Nat) (exclusive : Bool) (s1 : BufferManager) (f : BufferFrame),
      (fix_page s page_id exclusive).state? = some s1 → f ∈ s.fifo ++ s.lru →
      f.getCounter ≠ 0 → f.getPageID ∈ s1.get_fifo_list ++ s1.get_lru_list) ∧
    (∀ (page_id : Nat) (exclusive : Bool) (frame : BufferFrame),
      (fix_page s page_id exclusive).frame? = some frame →
      frame.getPageID = page_id ∧ frame.getCounter = 1) ∧
    (∀ (page : BufferFrame) (is_dirty : Bool) (s2 : BufferManager),
      unfix_page s page is_dirty = some s2 →
      (page.getPageID ∈ s.get_fifo_list →
        ∃ f, s2.fifo.find? (fun f => f.getPageID == page.getPageID) = some f ∧
          f.getCounter = 0) ∧
      (page.getPageID ∈ s.get_lru_list →
        ∃ f, s2.lru.find? (fun f => f.getPageID == page.getPageID) = some f ∧
          f.getCounter = 0)) := by
  have hI := Inv_run hrun
  refine ⟨?_, ?_, ?_⟩
  · intro page_id e s1 f h hf hc
    exact fix_page_keeps_fixed hI h hf hc
  · intro page_id e frame h
    exact fix_page_frame h
  · intro page d s2 h
    obtain ⟨h1, h2, _⟩ := unfix_page_state h
    rw [hI.fifoMap_eq] at h1
    rw [hI.lruMap_eq] at h2
    constructor
    · intro hk
      obtain ⟨f, hf, hc, _⟩ := unfix_in_first h1 hk
      exact ⟨f, hf, hc⟩
    · intro hk
      obtain ⟨f, hf, hc, _⟩ := unfix_in_first h2 hk
      exact ⟨f, hf, hc⟩

/-- C3, amended, at a concrete input: page 2 fixed and unfixed, then page 1 fixed, in a pool
of two frames; `fix_page(3)` keeps page 1, `fix_page(1)` returns a frame with counter 1, and
`unfix_page` on page 1 leaves counter 0. -/
theorem pin_safety_counter_witness :
    run (BufferManager.create 64 2 emptyDisk)
      [.fix_page 2 false, .unfix_page (pageRef 2 false) false, .fix_page 1 false] =
      some pinDemo ∧
    (fix_page pinDemo 3 false).state? = some pinDemoNext ∧
    pinDemo.fifo.getLast? = some pinDemoFrame ∧ pinDemoFrame.getCounter ≠ 0 ∧
    pinDemoFrame.getPageID ∈ pinDemoNext.get_fifo_list ++ pinDemoNext.get_lru_list ∧
    (fix_page pinDemo 1 false).frame? = some pinDemoHit ∧ pinDemoHit.getCounter = 1 ∧
    unfix_page pinDemo (pageRef 1 false) false = some pinDemoUnfixed ∧
    (∃ f, pinDemoUnfixed.fifo.find? (fun f => f.getPageID == 1) = some f ∧
      f.getCounter = 0) :=
  have h := pin_safety_counter 64 2 emptyDisk
    [.fix_page 2 false, .unfix_page (pageRef 2 false) false, .fix_page 1 false] pinDemo
    (by decide)
  ⟨by decide, by decide, by decide, by decide,
    h.1 3 false pinDemoNext pinDemoFrame (by decide) (by decide) (by decide),
    by decide, (h.2.1 1 false pinDemoHit (by decide)).2,
    by decide, (h.2.2 (pageRef 1 false) false pinDemoUnfixed (by decide)).1 (by decide)⟩

/-! ## C6 -/

/-- C6 at a concrete input: a pool of one frame with page 1 fixed, and `fix_page(2, true)`,
which throws. -/
theorem buffer_full_atomic_witness :
    fix_page fullDemo 2 true = .buffer_full_error fullDemoAfter ∧
    fullDemoAfter.fifo = fullDemo.fifo ∧ fullDemoAfter.lru = fullDemo.lru ∧
    fullDemoAfter.fifoMap = fullDemo.fifoMap ∧ fullDemoAfter.lruMap = fullDemo.lruMap ∧
    fullDemoAfter.page_mutex = fullDemo.page_mutex ∧
    fullDemoAfter.disk.log.filter IOEvent.isWrite =
      fullDemo.disk.log.filter IOEvent.isWrite ∧
    fullDemoAfter.disk.blocks = fullDemo.disk.blocks :=
  ⟨by decide, buffer_full_atomic fullDemo fullDemoAfter 2 true (by decide)⟩

/-! ## C5 and C7: filling the pool with shared fixes -/

/-- C7 (as stated, fails on the code). The claim leaves the lock mode of the calls open.
With `L = [1, 2]` on a pool of two frames and the first page fixed exclusively, the first
call returns holding `page_mutex`, which is one mutex for all pages, and the second call
waits for it: it does not come back, and FIFO is `[1]`. -/
theorem fifo_admission_exclusive_waits :
    (run (BufferManager.create 64 2 emptyDisk) [.fix_page 1 true]).map
      (fun s => (s.get_fifo_list, s.page_mutex, (fix_page s 2 false).outcome)) =
      some ([1], shared_mutex.exclusive, Outcome.blocked) ∧
    run (BufferManager.create 64 2 emptyDisk) [.fix_page 1 true, .fix_page 2 false] = none := by
  refine ⟨by decide, by decide⟩

/-- C7, amended. FIFO admission on first touch, for shared fixes: for every list `L` of
pairwise distinct page ids of length at most `page_count`, the calls
`fix_page(id, false)` for the elements of `L` in order on a newly constructed manager all
return, and afterwards `get_fifo_list` is `L` and `get_lru_list` is empty. -/
theorem fifo_admission_shared (page_size page_count : Nat) (disk : File) (L : List Nat)
    (hnd : L.Nodup) (hlen : L.length ≤ page_count) :
    ∃ s, run (BufferManager.create page_size page_count disk)
        (L.map (fun id => Call.fix_page id false)) = some s ∧
      s.get_fifo_list = L ∧ s.get_lru_list = [] := by
  obtain ⟨s, hrun, hs, hlist, _⟩ := run_fix_shared L
    (BufferManager.create page_size page_count disk) (AllFixed_create _ _ _)
    (by simpa [BufferManager.get_fifo_list, BufferManager.create] using hnd)
    (by simpa [BufferManager.create] using hlen)
  refine ⟨s, hrun, ?_, ?_⟩
  · simpa [BufferManager.get_fifo_list, BufferManager.create] using hlist
  · simp [BufferManager.get_lru_list, hs.lru_eq]

/-- C7, amended, at a concrete input: scenario S1, pages 1, 2, 3 on a pool of ten frames. -/
theorem fifo_admission_shared_witness :
    [1, 2, 3].Nodup ∧ [1, 2, 3].length ≤ 10 ∧
    ∃ s, run (BufferManager.create 64 10 emptyDisk)
        ([1, 2, 3].map (fun id => Call.fix_page id false)) = some s ∧
      s.get_fifo_list = [1, 2, 3] ∧ s.get_lru_list = [] :=
  ⟨by decide, by decide,
    fifo_admission_shared 64 10 emptyDisk [1, 2, 3] (by decide) (by decide)⟩

/-- C5 (as stated, fails on the code). The claim leaves the lock mode of the fixes open.
With `page_count = 1` and page 1 fixed exclusively, `fix_page` on page 2 does not throw
`buffer_full_error`: it waits for `page_mutex`, which the first call still holds. -/
theorem exhaustion_exclusive_waits :
    (run (BufferManager.create 64 1 emptyDisk) [.fix_page 1 true]).map
      (fun s => ((fix_page s 2 false).outcome, (fix_page s 2 true).outcome)) =
      some (Outcome.blocked, Outcome.blocked) := by
  decide

/-- C5, amended. Exhaustion, for shared fixes: for every `page_count >= 1` and every list
of `page_count` pairwise distinct page ids, the calls `fix_page(id, false)` on each of them
on a newly constructed manager all return, and with no `unfix_page`, `fix_page` on any
further page id, in either lock mode, throws `buffer_full_error`. -/
theorem exhaustion_shared (page_size page_count : Nat) (disk : File) (ids : List Nat)
    (q : Nat) (exclusive : Bool) (hpc : 1 ≤ page_count) (hnd : ids.Nodup)
    (hlen : ids.length = page_count) (hq : q ∉ ids) :
    ∃ s s1, run (BufferManager.create page_size page_count disk)
        (ids.map (fun id => Call.fix_page id false)) = some s ∧
      fix_page s q exclusive = .buffer_full_error s1 := by
  obtain ⟨s, hrun, hs, hlist, hcount⟩ := run_fix_shared ids
    (BufferManager.create page_size page_count disk) (AllFixed_create _ _ _)
    (by simpa [BufferManager.get_fifo_list, BufferManager.create] using hnd)
    (by simp [BufferManager.create, hlen])
  have hlist2 : s.fifo.map (·.getPageID) = ids := by
    simpa [BufferManager.get_fifo_list, BufferManager.create] using hlist
  have hflen : s.fifo.length = page_count := by
    have := congrArg List.length hlist2
    simpa [hlen] using this
  have hcount2 : s.pageCount = page_count := by simpa [BufferManager.create] using hcount
  have hnone : ∀ dirty, findUnfixed dirty s.fifo = none := by
    intro dirty
    refine firstIdx_eq_none.mpr ?_
    intro f hf
    have := hs.counter f hf
    simp [this]
  refine ⟨s, _, hrun, fix_page_full_eq s q exclusive hs.mutex ?_ ?_ ?_ ?_ (hnone _) (hnone _)⟩
  · rw [hs.lruMap_eq]; rfl
  · rw [hs.fifoMap_eq]
    exact lookup_reassign_eq_none.mpr (by rw [hlist2]; exact hq)
  · rw [hflen]; omega
  · rw [hs.lru_eq, hflen, hcount2]; simp

/-- C5, amended, at a concrete input: pages 1 and 2 fixed on a pool of two frames, then
`fix_page(3, true)`. -/
theorem exhaustion_shared_witness :
    1 ≤ 2 ∧ [1, 2].Nodup ∧ [1, 2].length = 2 ∧ 3 ∉ [1, 2] ∧
    ∃ s s1, run (BufferManager.create 64 2 emptyDisk)
        ([1, 2].map (fun id => Call.fix_page id false)) = some s ∧
      fix_page s 3 true = .buffer_full_error s1 :=
  ⟨by decide, by decide, by decide, by decide,
    exhaustion_shared 64 2 emptyDisk [1, 2] 3 true (by decide) (by decide) (by decide)
      (by decide)⟩

/-! ## C8: promotion -/

/-- C8 (as stated, fails on the code). After `fix_page(1, true)` on a pool of two frames
page 1 is in FIFO and the pool is not full, but `fix_page(1, _)` does not succeed: the
first call holds `page_mutex` exclusively and the second one waits for it. -/
theorem promotion_waits_for_lock :
    (run (BufferManager.create 64 2 emptyDisk) [.fix_page 1 true]).map
      (fun s => (s.get_fifo_list, s.get_lru_list, s.pageCount,
        (fix_page s 1 false).outcome, (fix_page s 1 true).outcome)) =
      some ([1], [], 2, Outcome.blocked, Outcome.blocked) := by
  decide

/-- C8, amended. Promotion on second touch, the page lock being free: in every state
reached from a newly constructed manager in which page `p` is in FIFO, the pool is not full
and `page_mutex` is not held, `fix_page(p, _)` returns a frame, and afterwards
`get_fifo_list` is the old one with `p` removed (`p` no longer occurs in it) and
`get_lru_list` is the old one followed by `p`. -/
theorem promotion_on_second_touch (page_size page_count : Nat) (disk : File)
    (calls : List Call) (s : BufferManager) (p : Nat) (exclusive : Bool)
    (hrun : run (BufferManager.create page_size page_count disk) calls = some s)
    (hp : p ∈ s.get_fifo_list)
    (hlt : s.get_fifo_list.length + s.get_lru_list.length < page_count)
    (hm : s.page_mutex = .unlocked) :
    ∃ s1 frame, fix_page s p exclusive = .ok s1 frame ∧
      s1.get_fifo_list = s.get_fifo_list.erase p ∧ p ∉ s1.get_fifo_list ∧
      s1.get_lru_list = s.get_lru_list ++ [p] := by
  have hI := Inv_run hrun
  have hpc := pageCount_run hrun
  simp only [BufferManager.get_fifo_list, BufferManager.get_lru_list, List.length_map] at hp hlt
  have hlt2 : s.lru.length + s.fifo.length < s.pageCount := by rw [hpc]; omega
  have hnd := hI.nodup hlt2
  simp only [BufferManager.get_fifo_list, BufferManager.get_lru_list] at hnd
  have hnl : p ∉ s.lru.map (·.getPageID) := fun hmem => (List.nodup_append.mp hnd).2.2 hp hmem
  have hl : s.lruMap.lookup p = none := by
    rw [hI.lruMap_eq]; exact lookup_reassign_eq_none.mpr hnl
  obtain ⟨pos, hpos⟩ := lookup_reassign_of_mem hp
  obtain ⟨hlen, _, hids⟩ := ids_eraseIdx_lookup hpos
  have hf : s.fifoMap.lookup p = some pos := by rw [hI.fifoMap_eq]; exact hpos
  have hold : s.fifo[pos]? = some s.fifo[pos] := List.getElem?_eq_getElem hlen
  refine ⟨_, _, fix_page_promote_eq s p exclusive pos _ hm hl hf hold hlt2, ?_, ?_, ?_⟩
  · simp [BufferManager.get_fifo_list, hids]
  · simp only [BufferManager.get_fifo_list, hids]
    exact (List.nodup_append.mp hnd).1.not_mem_erase
  · simp only [BufferManager.get_lru_list, List.map_append, List.map_cons, List.map_nil]
    congr 2

/-- C8, amended, at a concrete input: pages 1 and 2 in FIFO, unfixed, then `fix_page(1)`. -/
theorem promotion_on_second_touch_witness :
    run (BufferManager.create 64 10 emptyDisk)
      [.fix_page 1 false, .unfix_page (pageRef 1 false) false, .fix_page 2 false,
       .unfix_page (pageRef 2 false) false] = some promoteDemo ∧
    1 ∈ promoteDemo.get_fifo_list ∧
    promoteDemo.get_fifo_list.length + promoteDemo.get_lru_list.length < 10 ∧
    promoteDemo.page_mutex = .unlocked ∧
    ∃ s1 frame, fix_page promoteDemo 1 false = .ok s1 frame ∧
      s1.get_fifo_list = promoteDemo.get_fifo_list.erase 1 ∧ 1 ∉ s1.get_fifo_list ∧
      s1.get_lru_list = promoteDemo.get_lru_list ++ [1] :=
  ⟨by decide, by decide, by decide, by decide,
    promotion_on_second_touch 64 10 emptyDisk
      [.fix_page 1 false, .unfix_page (pageRef 1 false) false, .fix_page 2 false,
       .unfix_page (pageRef 2 false) false] promoteDemo 1 false
      (by decide) (by decide) (by decide) (by decide)⟩

/-! ## C9: a hit in LRU -/

/-- C9 (as stated, fails on the code). After `fix_page(1, false)` and `fix_page(1, true)` on
a pool of two frames page 1 is in LRU, but `fix_page(1, _)` does not succeed: the second
call holds `page_mutex` exclusively and the third one waits for it. -/
theorem lru_hit_waits_for_lock :
    (run (BufferManager.create 64 2 emptyDisk) [.fix_page 1 false, .fix_page 1 true]).map
      (fun s => (s.get_fifo_list, s.get_lru_list,
        (fix_page s 1 false).outcome, (fix_page s 1 true).outcome)) =
      some ([], [1], Outcome.blocked, Outcome.blocked) := by
  decide

/-- C9, amended. LRU ordering, the page lock being free: in every state reached from a
newly constructed manager in which page `p` is in LRU and `page_mutex` is not held,
`fix_page(p, _)` returns a frame, and afterwards `get_lru_list` is the old one with `p`
removed (the rest in its order, without `p`) followed by `p`, and `get_fifo_list` is
unchanged. -/
theorem lru_hit_moves_to_tail (page_size page_count : Nat) (disk : File)
    (calls : List Call) (s : BufferManager) (p : Nat) (exclusive : Bool)
    (hrun : run (BufferManager.create page_size page_count disk) calls = some s)
    (hp : p ∈ s.get_lru_list) (hm : s.page_mutex = .unlocked) :
    ∃ s1 frame, fix_page s p exclusive = .ok s1 frame ∧
      s1.get_lru_list = s.get_lru_list.erase p ++ [p] ∧ p ∉ s.get_lru_list.erase p ∧
      s1.get_fifo_list = s.get_fifo_list := by
  have hI := Inv_run hrun
  obtain ⟨pos, hpos⟩ := lookup_reassign_of_mem hp
  obtain ⟨hlen, _, hids⟩ := ids_eraseIdx_lookup hpos
  have hl : s.lruMap.lookup p = some pos := by rw [hI.lruMap_eq]; exact hpos
  have hold : s.lru[pos]? = some s.lru[pos] := List.getElem?_eq_getElem hlen
  refine ⟨_, _, fix_page_hit_eq s p exclusive pos _ hm hl hold, ?_, ?_, rfl⟩
  · simp only [BufferManager.get_lru_list, List.map_append, List.map_cons, List.map_nil, hids]
    congr 2
  · exact hI.lru_nodup.not_mem_erase

/-- C9, amended, at a concrete input: scenario S3, LRU `[1, 2]`, then `fix_page(1)`. -/
theorem lru_hit_moves_to_tail_witness :
    run (BufferManager.create 64 10 emptyDisk)
      [.fix_page 1 false, .fix_page 1 false, .unfix_page (pageRef 1 false) false,
       .fix_page 2 false, .fix_page 2 false, .unfix_page (pageRef 2 false) false] =
      some lruDemo ∧
    1 ∈ lruDemo.get_lru_list ∧ lruDemo.page_mutex = .unlocked ∧
    ∃ s1 frame, fix_page lruDemo 1 false = .ok s1 frame ∧
      s1.get_lru_list = lruDemo.get_lru_list.erase 1 ++ [1] ∧
      1 ∉ lruDemo.get_lru_list.erase 1 ∧
      s1.get_fifo_list = lruDemo.get_fifo_list :=
  ⟨by decide, by decide, by decide,
    lru_hit_moves_to_tail 64 10 emptyDisk
      [.fix_page 1 false, .fix_page 1 false, .unfix_page (pageRef 1 false) false,
       .fix_page 2 false, .fix_page 2 false, .unfix_page (pageRef 2 false) false]
      lruDemo 1 false (by decide) (by decide) (by decide)⟩

/-! ## C10: clean-first eviction -/

/-- C10 (as stated, fails on the code). On a pool of two frames, after `fix_page(1, false)`,
`unfix_page(1)` and `fix_page(2, true)` the pool is full and FIFO holds the unfixed clean
frame of page 1, but `fix_page(3, _)` evicts nothing: the call for page 2 holds
`page_mutex` exclusively and the call for page 3 waits for it. -/
theorem clean_eviction_waits_for_lock :
    (run (BufferManager.create 64 2 emptyDisk)
        [.fix_page 1 false, .unfix_page (pageRef 1 false) false, .fix_page 2 true]).map
      (fun s => (s.get_fifo_list, s.fifo.map (·.getCounter), s.fifo.map (·.getDirty),
        (fix_page s 3 false).outcome, (fix_page s 3 true).outcome)) =
      some ([1, 2], [0, 1], [false, false], Outcome.blocked, Outcome.blocked) := by
  decide

/-- C10, amended. Clean-first eviction, the page lock being free: in every state reached
from a newly constructed manager with a full pool and `page_mutex` not held, for every page
id `q` in neither queue, if FIFO holds a frame with counter `0` that is clean, then
`fix_page(q, _)` returns a frame for `q`; the frame erased is the first unfixed clean frame
from the FIFO head (the frames before it may be unfixed and dirty), the other frames keep
their order, the frame of `q` is at the FIFO tail, LRU is unchanged, and the call issues
one `read_block` and no `write_block`. -/
theorem clean_first_eviction (page_size page_count : Nat) (disk : File)
    (calls : List Call) (s : BufferManager) (q : Nat) (exclusive : Bool)
    (hrun : run (BufferManager.create page_size page_count disk) calls = some s)
    (hfull : s.get_fifo_list.length + s.get_lru_list.length = page_count)
    (hq : q ∉ s.get_fifo_list ++ s.get_lru_list)
    (hex : ∃ f ∈ s.fifo, f.getCounter = 0 ∧ f.getDirty = false)
    (hm : s.page_mutex = .unlocked) :
    ∃ pre victim post s1 frame,
      s.fifo = pre ++ victim :: post ∧
      (∀ f ∈ pre, ¬ (f.getCounter = 0 ∧ f.getDirty = false)) ∧
      victim.getCounter = 0 ∧ victim.getDirty = false ∧
      fix_page s q exclusive = .ok s1 frame ∧ frame.getPageID = q ∧
      s1.fifo = pre ++ post ++ [frame] ∧ s1.lru = s.lru ∧
      s1.disk.log = s.disk.log ++
        [IOEvent.read_block (to_string (get_segment_id q)) (offSet q s.pageSize) s.pageSize] := by
  have hI := Inv_run hrun
  have hpc := pageCount_run hrun
  simp only [BufferManager.get_fifo_list, BufferManager.get_lru_list, List.length_map,
    List.mem_append, not_or] at hfull hq
  have hl : s.lruMap.lookup q = none := by
    rw [hI.lruMap_eq]; exact lookup_reassign_eq_none.mpr hq.2
  have hf : s.fifoMap.lookup q = none := by
    rw [hI.fifoMap_eq]; exact lookup_reassign_eq_none.mpr hq.1
  have hnlt : ¬ s.lru.length + s.fifo.length < s.pageCount := by rw [hpc]; omega
  obtain ⟨i, hi⟩ : ∃ i, findUnfixed false s.fifo = some i := by
    cases hfu : findUnfixed false s.fifo with
    | some i => exact ⟨i, rfl⟩
    | none =>
      obtain ⟨f, hfm, hc, hd⟩ := hex
      have := firstIdx_eq_none.mp hfu f hfm
      simp [hc, hd] at this
  obtain ⟨pre, victim, post, hv, hlen, hx, hpre⟩ := firstIdx_eq_some hi
  simp only [Bool.and_eq_true, decide_eq_true_eq, beq_iff_eq] at hx
  refine ⟨pre, victim, post, _, _, hv, ?_, hx.1, hx.2,
    fix_page_evict_clean_eq s q exclusive i hm hl hf hnlt hi, newPage_pageID _ _ _ _, ?_, rfl, ?_⟩
  · intro f hfm hcd
    have := hpre f hfm
    simp [hcd.1, hcd.2] at this
  · simp only
    rw [hv, ← hlen, eraseIdx_split]
  · simp [fix_page_read, hl, hf, File.read_block]

/-- C10, amended, at a concrete input: FIFO holds page 1 (unfixed, dirty) before page 2
(unfixed, clean); `fix_page(3)` evicts page 2. -/
theorem clean_first_eviction_witness :
    run (BufferManager.create 64 2 emptyDisk)
      [.fix_page 1 true, .unfix_page (pageRef 1 true) true, .fix_page 2 false,
       .unfix_page (pageRef 2 false) false] = some cleanDemo ∧
    cleanDemo.get_fifo_list.length + cleanDemo.get_lru_list.length = 2 ∧
    3 ∉ cleanDemo.get_fifo_list ++ cleanDemo.get_lru_list ∧
    (∃ f ∈ cleanDemo.fifo, f.getCounter = 0 ∧ f.getDirty = false) ∧
    cleanDemo.page_mutex = .unlocked ∧
    ∃ pre victim post s1 frame,
      cleanDemo.fifo = pre ++ victim :: post ∧
      (∀ f ∈ pre, ¬ (f.getCounter = 0 ∧ f.getDirty = false)) ∧
      victim.getCounter = 0 ∧ victim.getDirty = false ∧
      fix_page cleanDemo 3 false = .ok s1 frame ∧ frame.getPageID = 3 ∧
      s1.fifo = pre ++ post ++ [frame] ∧ s1.lru = cleanDemo.lru ∧
      s1.disk.log = cleanDemo.disk.log ++
        [IOEvent.read_block (to_string (get_segment_id 3)) (offSet 3 cleanDemo.pageSize)
          cleanDemo.pageSize] :=
  ⟨by decide, by decide, by decide, by decide, by decide,
    clean_first_eviction 64 2 emptyDisk
      [.fix_page 1 true, .unfix_page (pageRef 1 true) true, .fix_page 2 false,
       .unfix_page (pageRef 2 false) false] cleanDemo 3 false
      (by decide) (by decide) (by decide) (by decide) (by decide)⟩

/-! ## The paths of `fix_page` in full -/

theorem unlock_of_lock {m0 m : shared_mutex} {e : Bool}
    (h : (if e then m0.lock else m0.lock_shared) = some m) :
    (if e then m.unlock else m.unlock_shared) = some m0 ∧ (e = true → m = .exclusive) := by
  cases e
  · simp only [Bool.false_eq_true, if_false] at h ⊢
    exact ⟨unlock_shared_lock_shared h, by simp⟩
  · simp only [if_true] at h ⊢
    refine ⟨unlock_lock h, fun _ => ?_⟩
    cases m0 <;> simp [shared_mutex.lock] at h
    exact h.symm

theorem return_back_path {s : BufferManager} {e : Bool} {m : shared_mutex}
    (hlock : (if e then s.page_mutex.lock else s.page_mutex.lock_shared) = some m)
    (t : BufferManager) (ht : t.page_mutex = m) (f : BufferFrame) :
    return_back t e f = .ok { t with page_mutex := mutexAfter s e } f := by
  obtain ⟨hu, hx⟩ := unlock_of_lock hlock
  obtain ⟨fifo, lru, ps, pc, tm, fm, lm, d⟩ := t
  simp only at ht
  subst ht
  cases e
  · simp only [Bool.false_eq_true, if_false] at hu
    simp [return_back, mutexAfter, hu]
  · have := hx rfl
    subst this
    simp [return_back, mutexAfter]

theorem write_back_path {s : BufferManager} {e : Bool} {m : shared_mutex}
    (hlock : (if e then s.page_mutex.lock else s.page_mutex.lock_shared) = some m)
    (t : BufferManager) (ht : t.page_mutex = m) (victim f : BufferFrame) :
    write_back t e victim.getPageID victim.getFrameVector f =
      if (victimWrite t.disk t.pageSize victim).2 then
        .ok { t with page_mutex := mutexAfter s e,
                     disk := (victimWrite t.disk t.pageSize victim).1 } f
      else
        .io_error { t with page_mutex := s.page_mutex,
                           disk := (victimWrite t.disk t.pageSize victim).1 } := by
  obtain ⟨hu, hx⟩ := unlock_of_lock hlock
  obtain ⟨fifo, lru, ps, pc, tm, fm, lm, d⟩ := t
  simp only at ht
  subst ht
  cases e
  · simp only [Bool.false_eq_true, if_false] at hu
    simp only [write_back, victimWrite, Bool.false_eq_true, if_false, hu, mutexAfter]
  · have := hx rfl
    subst this
    simp only [if_true] at hu
    have hs : s.page_mutex = .unlocked := by
      have : shared_mutex.unlocked = s.page_mutex := by simpa [shared_mutex.unlock] using hu
      exact this.symm
    simp only [write_back, victimWrite, if_true, shared_mutex.unlock, mutexAfter, hs,
      shared_mutex.lock]

theorem findUnfixed_getElem {dirty : Bool} {v : List BufferFrame} {i : Nat}
    (h : findUnfixed dirty v = some i) :
    ∃ x, v[i]? = some x ∧ x.getCounter = 0 ∧ x.getDirty = dirty := by
  obtain ⟨pre, x, post, hv, hl, hx, _⟩ := firstIdx_eq_some h
  subst hv hl
  simp only [Bool.and_eq_true, decide_eq_true_eq, beq_iff_eq] at hx
  exact ⟨x, getElem?_split pre post x, hx.1, hx.2⟩

/-- Lines 183-249, path by path. -/
theorem fix_page_fifo_path {s : BufferManager} {page_id : Nat} {e : Bool} {m : shared_mutex}
    (hlock : (if e then s.page_mutex.lock else s.page_mutex.lock_shared) = some m)
    (hne : ¬ (s.fifo.length = 0 ∧ s.lru.length = 0))
    (hl : s.lruMap.lookup page_id = none)
    (hr : ReachesFifo s page_id)
    (hf : s.lru.length + s.fifo.length < s.pageCount → s.fifoMap.lookup page_id = none) :
    Path s page_id e
      (fix_page_fifo { s with disk := (fix_page_read s page_id).1, page_mutex := m }
        (newFrame s page_id e) page_id e) := by
  have hcan : canLock s e = true := by simp [canLock, hlock]
  unfold fix_page_fifo
  by_cases hlt : s.lru.length + s.fifo.length < s.pageCount
  · simp only [hlt, if_true]
    rw [return_back_path hlock _ rfl]
    have := @Path.append_fifo s page_id e hcan hne hl (hf hlt) hlt
    simpa using this
  · simp only [hlt, if_false]
    cases h0 : findUnfixed false s.fifo with
    | some i =>
      simp only
      rw [return_back_path hlock _ rfl]
      exact Path.fifo_clean i hcan hne hr hlt h0
    | none =>
      simp only
      cases h1 : findUnfixed true s.fifo with
      | some i =>
        obtain ⟨victim, hv, _, _⟩ := findUnfixed_getElem h1
        simp only [hv]
        rw [write_back_path hlock _ rfl]
        by_cases hw : (victimWrite (fix_page_read s page_id).1 s.pageSize victim).2 = true
        · simp only [hw, if_true]
          exact Path.fifo_dirty i victim hcan hne hr hlt h0 h1 hv hw
        · simp only [hw, if_false]
          have hw2 : (victimWrite (fix_page_read s page_id).1 s.pageSize victim).2 = false := by
            simpa using hw
          exact Path.fifo_dirty_fails i victim hcan hne hr hlt h0 h1 hv hw2
      | none =>
        simp only
        rw [(unlock_of_lock hlock).1]
        exact Path.full hcan hne hr hlt h0 h1

/-- Every call of `fix_page` follows one of the paths. -/
theorem fix_page_path (s : BufferManager) (page_id : Nat) (e : Bool) :
    Path s page_id e (fix_page s page_id e) := by
  unfold fix_page
  simp only
  cases hlock : (if e then s.page_mutex.lock else s.page_mutex.lock_shared) with
  | none =>
    simp only
    exact Path.blocked (by simp [canLock, hlock])
  | some m =>
    simp only
    have hcan : canLock s e = true := by simp [canLock, hlock]
    unfold fix_page_locked
    by_cases hne : s.fifo.length = 0 ∧ s.lru.length = 0
    · simp only [hne, and_self, if_true]
      rw [return_back_path hlock _ rfl]
      exact Path.first hcan (List.length_eq_zero.mp hne.1) (List.length_eq_zero.mp hne.2)
    · simp only [hne, if_false]
      cases hl : s.lruMap.lookup page_id with
      | some position =>
        simp only
        cases hold : s.lru[position]? with
        | none => exact Path.stale_lru position hcan hne hl hold
        | some old =>
          simp only
          rw [return_back_path hlock _ rfl]
          exact Path.hit position old hcan hne hl hold
      | none =>
        simp only
        cases hf : s.fifoMap.lookup page_id with
        | none =>
          simp only
          exact fix_page_fifo_path hlock hne hl ⟨hl, Or.inl hf⟩ (fun _ => hf)
        | some position =>
          simp only
          unfold fix_page_promote
          by_cases hlt : s.lru.length + s.fifo.length < s.pageCount
          · simp only [hlt, if_true]
            cases hold : s.fifo[position]? with
            | none => exact Path.stale_fifo position hcan hne hl hf hlt hold
            | some old =>
              simp only
              rw [return_back_path hlock _ rfl]
              have := Path.promote position old hcan hne hl hf hlt hold
              simpa using this
          · simp only [hlt, if_false]
            cases h0 : findUnfixed false s.lru with
            | some i =>
              simp only
              rw [return_back_path hlock _ rfl]
              exact Path.lru_clean position i hcan hne hl hf hlt h0
            | none =>
              simp only
              cases h1 : findUnfixed true s.lru with
              | some i =>
                obtain ⟨victim, hv, _, _⟩ := findUnfixed_getElem h1
                simp only [hv]
                rw [write_back_path hlock _ rfl]
                by_cases hw :
                    (victimWrite (fix_page_read s page_id).1 s.pageSize victim).2 = true
                · simp only [hw, if_true]
                  exact Path.lru_dirty position i victim hcan hne hl hf hlt h0 h1 hv hw
                · simp only [hw, if_false]
                  have hw2 :
                      (victimWrite (fix_page_read s page_id).1 s.pageSize victim).2 = false := by
                    simpa using hw
                  exact Path.lru_dirty_fails position i victim hcan hne hl hf hlt h0 h1 hv hw2
              | none =>
                simp only
                refine fix_page_fifo_path hlock hne hl ⟨hl, Or.inr ⟨by simp [hf], hlt, h0, h1⟩⟩ ?_
                intro h; exact absurd h hlt

/-! ## C13: page ids -/

/-- C13. Page id decomposition: for every unsigned 64-bit page id, `get_segment_id(id)` is
`id >> 48` and below `2^16`, `get_segment_page_id(id)` is `id & (2^48 - 1)` and below
`2^48`, and `get_segment_id(id) * 2^48 + get_segment_page_id(id) = id`; so two 64-bit ids
with the same segment id and the same page number in the segment are equal. -/
theorem page_id_decomposition (id : Nat) (h : id < 2 ^ 64) :
    get_segment_id id = id >>> 48 ∧ get_segment_id id < 2 ^ 16 ∧
    get_segment_page_id id = id &&& (2 ^ 48 - 1) ∧ get_segment_page_id id < 2 ^ 48 ∧
    get_segment_id id * 2 ^ 48 + get_segment_page_id id = id ∧
    (∀ id2, id2 < 2 ^ 64 → get_segment_id id2 = get_segment_id id →
      get_segment_page_id id2 = get_segment_page_id id → id2 = id) := by
  have key : ∀ n, n < 2 ^ 64 →
      get_segment_id n = n / 2 ^ 48 ∧ get_segment_page_id n = n % 2 ^ 48 := by
    intro n hn
    have h1 : n / 2 ^ 48 < 2 ^ 16 := by omega
    constructor
    · simp only [get_segment_id, Nat.shiftRight_eq_div_pow]
      exact Nat.mod_eq_of_lt h1
    · simp only [get_segment_page_id]
      exact Nat.and_pow_two_sub_one_eq_mod n 48
  obtain ⟨hs, hp⟩ := key id h
  refine ⟨?_, ?_, rfl, ?_, ?_, ?_⟩
  · rw [hs, Nat.shiftRight_eq_div_pow]
  · rw [hs]; omega
  · rw [hp]; omega
  · rw [hs, hp]; omega
  · intro id2 h2 e1 e2
    obtain ⟨hs2, hp2⟩ := key id2 h2
    rw [hs, hs2] at e1
    rw [hp, hp2] at e2
    omega

/-- C13 at a concrete input: page 5 of segment 3. -/
theorem page_id_decomposition_witness :
    3 * 2 ^ 48 + 5 < 2 ^ 64 ∧
    get_segment_id (3 * 2 ^ 48 + 5) = 3 ∧ get_segment_page_id (3 * 2 ^ 48 + 5) = 5 ∧
    get_segment_id (3 * 2 ^ 48 + 5) * 2 ^ 48 + get_segment_page_id (3 * 2 ^ 48 + 5) =
      3 * 2 ^ 48 + 5 :=
  ⟨by decide, by decide, by decide,
    (page_id_decomposition (3 * 2 ^ 48 + 5) (by decide)).2.2.2.2.1⟩

/-! ## C15: the destructor -/

theorem victimWrite_log (d : File) (pageSize : Nat) (f : BufferFrame) :
    (victimWrite d pageSize f).1.log = d.log ++ [victimEvent pageSize f] ∧
    (victimWrite d pageSize f).1.faulty = d.faulty := by
  unfold victimWrite File.write_block victimEvent
  split <;> simp

theorem victimWrite_ok (d : File) (pageSize : Nat) (f : BufferFrame) :
    (victimWrite d pageSize f).2 = true ↔
      (to_string (get_segment_id f.getPageID), offSet f.getPageID pageSize) ∉ d.faulty := by
  unfold victimWrite File.write_block
  split <;> simp_all

theorem write_dirty_log (pageSize : Nat) (v : List BufferFrame) :
    ∀ (d : File),
      (∀ f ∈ v, f.getDirty = true →
        (to_string (get_segment_id f.getPageID), offSet f.getPageID pageSize) ∉ d.faulty) →
      (write_dirty pageSize d v).2 = true ∧
      (write_dirty pageSize d v).1.faulty = d.faulty ∧
      (write_dirty pageSize d v).1.log =
        d.log ++ (v.filter (·.getDirty)).map (victimEvent pageSize) := by
  induction v with
  | nil => intro d _; simp [write_dirty]
  | cons a v ih =>
    intro d hd
    by_cases ha : a.getDirty = true
    · have hok := (victimWrite_ok d pageSize a).mpr (hd a (by simp) ha)
      obtain ⟨hlog, hfaulty⟩ := victimWrite_log d pageSize a
      obtain ⟨h1, h2, h3⟩ := ih (victimWrite d pageSize a).1 (by
        intro f hf hfd
        rw [hfaulty]
        exact hd f (by simp [hf]) hfd)
      simp only [write_dirty, ha, if_true, hok, List.filter_cons, List.map_cons]
      exact ⟨h1, h2.trans hfaulty, by rw [h3, hlog]; simp⟩
    · obtain ⟨h1, h2, h3⟩ := ih d (fun f hf hfd => hd f (by simp [hf]) hfd)
      simp only [write_dirty, ha, if_false, List.filter_cons]
      exact ⟨h1, h2, by simpa using h3⟩

/-- C15. Durability on teardown: when no `write_block` fails (no dirty frame has its place
among the faulty ones), the destructor runs to its end and issues, in order, one
`write_block` for every frame of FIFO and then of LRU whose dirty flag is set, with that
frame's buffer, `pageSize` as size, the decimal segment id as file name and the offset
`get_segment_page_id(id) * pageSize` (in `uint64_t`); it issues nothing else, so no write
for a clean frame. -/
theorem destructor_writes_dirty (s : BufferManager)
    (hok : ∀ f ∈ s.fifo ++ s.lru, f.getDirty = true →
      (to_string (get_segment_id f.getPageID), offSet f.getPageID s.pageSize) ∉ s.disk.faulty) :
    s.destructor.2 = true ∧
    s.destructor.1.log = s.disk.log ++
      ((s.fifo ++ s.lru).filter (·.getDirty)).map
        (fun f => IOEvent.write_block (to_string (get_segment_id f.getPageID))
          (offSet f.getPageID s.pageSize) s.pageSize f.getFrameVector) := by
  obtain ⟨h1, h2, h3⟩ := write_dirty_log s.pageSize s.fifo s.disk
    (fun f hf hd => hok f (List.mem_append_left _ hf) hd)
  obtain ⟨g1, _, g3⟩ := write_dirty_log s.pageSize s.lru (write_dirty s.pageSize s.disk s.fifo).1
    (fun f hf hd => by rw [h2]; exact hok f (List.mem_append_right _ hf) hd)
  unfold BufferManager.destructor
  simp only [h1, if_true]
  refine ⟨g1, ?_⟩
  rw [g3, h3]
  simp only [List.filter_append, List.map_append, List.append_assoc]
  rfl

/-- C15 at a concrete input: page 1 dirty and page 2 clean in FIFO, on a device without
faulty places; the destructor issues the one write for page 1. -/
theorem destructor_writes_dirty_witness :
    (∀ f ∈ teardownDemo.fifo ++ teardownDemo.lru, f.getDirty = true →
      (to_string (get_segment_id f.getPageID), offSet f.getPageID teardownDemo.pageSize) ∉
        teardownDemo.disk.faulty) ∧
    teardownDemo.destructor.2 = true ∧
    teardownDemo.destructor.1.log = teardownDemo.disk.log ++
      ((teardownDemo.fifo ++ teardownDemo.lru).filter (·.getDirty)).map
        (fun f => IOEvent.write_block (to_string (get_segment_id f.getPageID))
          (offSet f.getPageID teardownDemo.pageSize) teardownDemo.pageSize
          f.getFrameVector) :=
  ⟨by decide, destructor_writes_dirty teardownDemo (by decide)⟩

/-! ## C20: the index maps -/

theorem mem_keys_iff (m : PosMap) (k : Nat) :
    k ∈ m.map Prod.fst ↔ (List.lookup k m).isSome = true := by
  induction m with
  | nil => simp
  | cons a m ih =>
    obtain ⟨a1, a2⟩ := a
    by_cases h : k = a1
    · subst h; simp [List.lookup]
    · have hb : (k == a1) = false := by simpa using h
      simp only [List.map_cons, List.mem_cons, h, false_or, List.lookup, hb]
      exact ih

theorem keys_reassign (v : List BufferFrame) (k : Nat) :
    k ∈ (reassign v).map Prod.fst ↔ k ∈ v.map (·.getPageID) := by
  rw [mem_keys_iff]
  constructor
  · intro h
    by_contra hk
    rw [lookup_reassign_eq_none.mpr hk] at h
    simp at h
  · intro h
    obtain ⟨i, hi⟩ := lookup_reassign_of_mem h
    simp [hi]

theorem lookup_reassign_getElem {v : List BufferFrame} {k i : Nat}
    (h : List.lookup k (reassign v) = some i) :
    ∃ f, v[i]? = some f ∧ f.getPageID = k := by
  obtain ⟨pre, x, post, hv, hl, hx, _⟩ := lookup_reassign_eq_some h
  subst hv hl
  exact ⟨x, getElem?_split pre post x, hx⟩

/-- With consistent maps no call of `fix_page` runs into undefined behaviour. -/
theorem fix_page_defined {s : BufferManager} (hI : Inv s) (page_id : Nat) (e : Bool) :
    fix_page s page_id e ≠ .undefined := by
  have hp := fix_page_path s page_id e
  intro hu
  rw [hu] at hp
  cases hp with
  | stale_lru position _ _ hl hold =>
    rw [hI.lruMap_eq] at hl
    obtain ⟨f, hf, _⟩ := lookup_reassign_getElem hl
    rw [hf] at hold
    simp at hold
  | stale_fifo position _ _ _ hf _ hold =>
    rw [hI.fifoMap_eq] at hf
    obtain ⟨f, hf2, _⟩ := lookup_reassign_getElem hf
    rw [hf2] at hold
    simp at hold

theorem unfix_in_defined (v : List BufferFrame) (k : Nat) (d : Bool) :
    (unfix_in v (reassign v) k d).isSome = true := by
  unfold unfix_in
  cases h : List.lookup k (reassign v) with
  | none => simp
  | some i =>
    obtain ⟨f, hf, _⟩ := lookup_reassign_getElem h
    simp [hf]

/-- C20. Index maps never go stale: in every state reached from a newly constructed
manager by `fix_page` / `unfix_page` calls, the keys of `fifoMap` are the page ids present
in the `fifo` vector, and for every key `k` the stored position is a valid index with
`fifo[fifoMap[k]].pageID = k`; the same holds for `lruMap` and `lru`.  Consequently no
`fifo[position]` or `lru[position]` in `fix_page` or `unfix_page` is out of range:
`fix_page` never ends in undefined behaviour and both updates of `unfix_page` are
defined. -/
theorem index_maps_never_stale (page_size page_count : Nat) (disk : File)
    (calls : List Call) (s : BufferManager)
    (hrun : run (BufferManager.create page_size page_count disk) calls = some s) :
    (∀ k, k ∈ s.fifoMap.map Prod.fst ↔ k ∈ s.get_fifo_list) ∧
    (∀ k position, s.fifoMap.lookup k = some position →
      ∃ f, s.fifo[position]? = some f ∧ f.getPageID = k) ∧
    (∀ k, k ∈ s.lruMap.map Prod.fst ↔ k ∈ s.get_lru_list) ∧
    (∀ k position, s.lruMap.lookup k = some position →
      ∃ f, s.lru[position]? = some f ∧ f.getPageID = k) ∧
    (∀ page_id exclusive, fix_page s page_id exclusive ≠ .undefined) ∧
    (∀ (page : BufferFrame) (is_dirty : Bool),
      (unfix_in s.fifo s.fifoMap page.getPageID is_dirty).isSome = true ∧
      (unfix_in s.lru s.lruMap page.getPageID is_dirty).isSome = true) := by
  have hI := Inv_run hrun
  refine ⟨?_, ?_, ?_, ?_, fun page_id e => fix_page_defined hI page_id e, ?_⟩
  · intro k; rw [hI.fifoMap_eq]; exact keys_reassign s.fifo k
  · intro k position h; rw [hI.fifoMap_eq] at h; exact lookup_reassign_getElem h
  · intro k; rw [hI.lruMap_eq]; exact keys_reassign s.lru k
  · intro k position h; rw [hI.lruMap_eq] at h; exact lookup_reassign_getElem h
  · intro page d
    rw [hI.fifoMap_eq, hI.lruMap_eq]
    exact ⟨unfix_in_defined _ _ _, unfix_in_defined _ _ _⟩

/-- C20 at a concrete input: the state after FIFO has come to hold page 2 twice. -/
theorem index_maps_never_stale_witness :
    run (BufferManager.create 64 2 emptyDisk)
      [.fix_page 1 false, .unfix_page (pageRef 1 false) false, .fix_page 2 false,
       .fix_page 2 false] = some staleDemo ∧
    staleDemo.get_fifo_list = [2, 2] ∧ staleDemo.fifoMap = [(2, 0)] ∧
    (∀ k, k ∈ staleDemo.fifoMap.map Prod.fst ↔ k ∈ staleDemo.get_fifo_list) ∧
    fix_page staleDemo 2 false ≠ .undefined :=
  have h := index_maps_never_stale 64 2 emptyDisk
    [.fix_page 1 false, .unfix_page (pageRef 1 false) false, .fix_page 2 false,
     .fix_page 2 false] staleDemo (by decide)
  ⟨by decide, by decide, by decide, h.1, h.2.2.2.2.1 2 false⟩

/-! ## Frames keep their size -/

theorem length_resize (v : List Nat) (n : Nat) : (resize v n).length = n := by
  simp [resize]; omega

theorem newFrame_pageID (s : BufferManager) (page_id : Nat) (e : Bool) :
    (newFrame s page_id e).getPageID = page_id := newPage_pageID _ _ _ _

theorem newFrame_dirty (s : BufferManager) (page_id : Nat) (e : Bool) :
    (newFrame s page_id e).getDirty = false := by
  unfold newFrame fix_page_newPage
  split <;> rfl

theorem newFrame_length (s : BufferManager) (page_id : Nat) (e : Bool) :
    (newFrame s page_id e).getFrameVector.length = s.pageSize / 8 := by
  unfold newFrame fix_page_newPage fix_page_read
  by_cases hc : (s.fifoMap.lookup page_id).isNone ∧ (s.lruMap.lookup page_id).isNone
  · simp only [hc, and_self, if_true, File.read_block]
    split
    · simp only [BufferFrame.getFrameVector, BufferFrame.setFrameVector]
      exact length_resize _ _
    · simp only [BufferFrame.getFrameVector, BufferFrame.setExclusiveLock, BufferFrame.create]
      exact length_resize _ _
  · simp only [hc, if_false, List.length_nil, gt_iff_lt, Nat.lt_irrefl]
    simp only [BufferFrame.getFrameVector, BufferFrame.setExclusiveLock, BufferFrame.create]
    exact length_resize _ _

theorem Sized_of {s s1 : BufferManager} (hps : s1.pageSize = s.pageSize)
    (hsub : ∀ f ∈ s1.fifo ++ s1.lru,
      f ∈ s.fifo ++ s.lru ∨ f.getFrameVector.length = s.pageSize / 8)
    (hS : Sized s) : Sized s1 := by
  intro f hf
  rw [hps]
  rcases hsub f hf with h | h
  · exact hS f h
  · exact h

theorem mem_eraseIdx_append {α : Type} {f x : α} {v : List α} {i : Nat}
    (h : f ∈ v.eraseIdx i ++ [x]) : f ∈ v ∨ f = x := by
  rcases List.mem_append.mp h with h | h
  · exact Or.inl (List.mem_of_mem_eraseIdx h)
  · exact Or.inr (by simpa using h)

theorem Sized_fix_page {s s1 : BufferManager} {page_id : Nat} {e : Bool} (hS : Sized s)
    (h : (fix_page s page_id e).state? = some s1) : Sized s1 := by
  have hp := fix_page_path s page_id e
  have hn := newFrame_length s page_id e
  have hc : ∀ old, old ∈ s.fifo ++ s.lru →
      (carried (newFrame s page_id e) old).getFrameVector.length = s.pageSize / 8 :=
    fun old ho => hS old ho
  generalize fix_page s page_id e = r at hp h
  cases hp with
  | blocked _ =>
    simp only [FixResult.state?, Option.some.injEq] at h; subst h
    exact @Sized_of s _ rfl (fun f hf => Or.inl hf) hS
  | first _ h1 h2 =>
    simp only [FixResult.state?, Option.some.injEq] at h; subst h
    refine @Sized_of s _ rfl (fun f hf => ?_) hS
    simp only [h1, h2, List.nil_append, List.append_nil, List.mem_singleton] at hf
    exact Or.inr (hf ▸ hn)
  | stale_lru => simp [FixResult.state?] at h
  | stale_fifo => simp [FixResult.state?] at h
  | hit position old _ _ _ hold =>
    simp only [FixResult.state?, Option.some.injEq] at h; subst h
    refine @Sized_of s _ rfl (fun f hf => ?_) hS
    have hmem : old ∈ s.lru := List.getElem?_mem hold
    simp only [List.mem_append, List.mem_singleton] at hf ⊢
    rcases hf with hf | hf | hf
    · exact Or.inl (Or.inl hf)
    · exact Or.inl (Or.inr (List.mem_of_mem_eraseIdx hf))
    · exact Or.inr (hf ▸ hc old (List.mem_append_right _ hmem))
  | promote position old _ _ _ _ _ hold =>
    simp only [FixResult.state?, Option.some.injEq] at h; subst h
    refine @Sized_of s _ rfl (fun f hf => ?_) hS
    have hmem : old ∈ s.fifo := List.getElem?_mem hold
    simp only [List.mem_append, List.mem_singleton] at hf ⊢
    rcases hf with hf | hf | hf
    · exact Or.inl (Or.inl (List.mem_of_mem_eraseIdx hf))
    · exact Or.inl (Or.inr hf)
    · exact Or.inr (hf ▸ hc old (List.mem_append_left _ hmem))
  | lru_clean position i =>
    simp only [FixResult.state?, Option.some.injEq] at h; subst h
    refine @Sized_of s _ rfl (fun f hf => ?_) hS
    simp only [List.mem_append, List.mem_singleton] at hf ⊢
    rcases hf with hf | hf | hf
    · exact Or.inl (Or.inl hf)
    · exact Or.inl (Or.inr (List.mem_of_mem_eraseIdx hf))
    · exact Or.inr (hf ▸ hn)
  | lru_dirty position i victim =>
    simp only [FixResult.state?, Option.some.injEq] at h; subst h
    refine @Sized_of s _ rfl (fun f hf => ?_) hS
    simp only [List.mem_append, List.mem_singleton] at hf ⊢
    rcases hf with hf | hf | hf
    · exact Or.inl (Or.inl hf)
    · exact Or.inl (Or.inr (List.mem_of_mem_eraseIdx hf))
    · exact Or.inr (hf ▸ hn)
  | lru_dirty_fails position i victim =>
    simp only [FixResult.state?, Option.some.injEq] at h; subst h
    refine @Sized_of s _ rfl (fun f hf => ?_) hS
    simp only [List.mem_append, List.mem_singleton] at hf ⊢
    rcases hf with hf | hf | hf
    · exact Or.inl (Or.inl hf)
    · exact Or.inl (Or.inr (List.mem_of_mem_eraseIdx hf))
    · exact Or.inr (hf ▸ hn)
  | append_fifo =>
    simp only [FixResult.state?, Option.some.injEq] at h; subst h
    refine @Sized_of s _ rfl (fun f hf => ?_) hS
    simp only [List.mem_append, List.mem_singleton] at hf ⊢
    rcases hf with (hf | hf) | hf
    · exact Or.inl (Or.inl hf)
    · exact Or.inr (hf ▸ hn)
    · exact Or.inl (Or.inr hf)
  | fifo_clean i =>
    simp only [FixResult.state?, Option.some.injEq] at h; subst h
    refine @Sized_of s _ rfl (fun f hf => ?_) hS
    simp only [List.mem_append, List.mem_singleton] at hf ⊢
    rcases hf with (hf | hf) | hf
    · exact Or.inl (Or.inl (List.mem_of_mem_eraseIdx hf))
    · exact Or.inr (hf ▸ hn)
    · exact Or.inl (Or.inr hf)
  | fifo_dirty i victim =>
    simp only [FixResult.state?, Option.some.injEq] at h; subst h
    refine @Sized_of s _ rfl (fun f hf => ?_) hS
    simp only [List.mem_append, List.mem_singleton] at hf ⊢
    rcases hf with (hf | hf) | hf
    · exact Or.inl (Or.inl (List.mem_of_mem_eraseIdx hf))
    · exact Or.inr (hf ▸ hn)
    · exact Or.inl (Or.inr hf)
  | fifo_dirty_fails i victim =>
    simp only [FixResult.state?, Option.some.injEq] at h; subst h
    refine @Sized_of s _ rfl (fun f hf => ?_) hS
    simp only [List.mem_append, List.mem_singleton] at hf ⊢
    rcases hf with (hf | hf) | hf
    · exact Or.inl (Or.inl (List.mem_of_mem_eraseIdx hf))
    · exact Or.inr (hf ▸ hn)
    · exact Or.inl (Or.inr hf)
  | full =>
    simp only [FixResult.state?, Option.some.injEq] at h; subst h
    exact @Sized_of s _ rfl (fun f hf => Or.inl hf) hS

theorem unfix_in_sized {v v1 : List BufferFrame} {m : PosMap} {id n : Nat} {d : Bool}
    (h : unfix_in v m id d = some v1) (hv : ∀ f ∈ v, f.getFrameVector.length = n) :
    ∀ f ∈ v1, f.getFrameVector.length = n := by
  unfold unfix_in at h
  split at h
  · simp at h; subst h; exact hv
  · split at h
    · simp at h
    · next g hg =>
      simp only [Option.some.injEq] at h; subst h
      intro f hf
      rcases List.mem_or_eq_of_mem_set hf with hf | hf
      · exact hv f hf
      · subst hf
        exact hv g (List.getElem?_mem hg)

theorem Sized_step (s : BufferManager) (c : Call) (s1 : BufferManager) (hS : Sized s)
    (h : step s c = some s1) : Sized s1 := by
  cases c with
  | fix_page page_id e => exact Sized_fix_page hS (step_fix_page h)
  | unfix_page page d =>
    obtain ⟨h1, h2, _, _, _, h6, _⟩ := unfix_page_state h
    intro f hf
    rw [h6]
    rcases List.mem_append.mp hf with hf | hf
    · exact unfix_in_sized h1 (fun g hg => hS g (List.mem_append_left _ hg)) f hf
    · exact unfix_in_sized h2 (fun g hg => hS g (List.mem_append_right _ hg)) f hf

theorem Sized_run {page_size page_count : Nat} {disk : File} {calls : List Call}
    {s : BufferManager}
    (h : run (BufferManager.create page_size page_count disk) calls = some s) : Sized s :=
  run_induction Sized Sized_step calls _ s (by intro f hf; simp [BufferManager.create] at hf) h

/-! ## C11: durability on eviction -/

theorem dirtyCopies_append (v : BufferFrame) (a b : List BufferFrame) :
    dirtyCopies v (a ++ b) = dirtyCopies v a + dirtyCopies v b := by
  simp [dirtyCopies, List.countP_append]

theorem dirtyCopies_eraseIdx (v : BufferFrame) (l : List BufferFrame) (i : Nat)
    (x : BufferFrame) (h : l[i]? = some x) :
    dirtyCopies v (l.eraseIdx i) + dirtyCopies v [x] = dirtyCopies v l := by
  induction l generalizing i with
  | nil => simp at h
  | cons a l ih =>
    cases i with
    | zero =>
      simp only [List.getElem?_cons_zero, Option.some.injEq] at h
      subst h
      simp only [List.eraseIdx_cons_zero]
      rw [← dirtyCopies_append, show l ++ [a] = l ++ [a] from rfl]
      simp only [dirtyCopies, List.countP_append, List.countP_cons, List.countP_nil]
      omega
    | succ i =>
      simp only [List.getElem?_cons_succ] at h
      have := ih i h
      simp only [List.eraseIdx_cons_succ]
      simp only [dirtyCopies, List.countP_cons, List.countP_nil] at this ⊢
      omega

theorem dirtyCopies_newFrame (v : BufferFrame) (s : BufferManager) (page_id : Nat) (e : Bool) :
    dirtyCopies v [newFrame s page_id e] = 0 := by
  simp [dirtyCopies, newFrame_dirty]

theorem dirtyCopies_carried (v : BufferFrame) (s : BufferManager) (page_id : Nat) (e : Bool)
    (old : BufferFrame) (hold : old.getPageID = page_id) :
    dirtyCopies v [carried (newFrame s page_id e) old] = dirtyCopies v [old] := by
  have h1 : (carried (newFrame s page_id e) old).getPageID = old.getPageID := by
    rw [hold]; exact newFrame_pageID s page_id e
  have h2 : (carried (newFrame s page_id e) old).getDirty = old.getDirty := rfl
  have h3 : (carried (newFrame s page_id e) old).getFrameVector = old.getFrameVector := rfl
  simp only [dirtyCopies, List.countP_cons, List.countP_nil, h1, h2, h3]

theorem dirtyCopies_singleton_pos {v x : BufferFrame} (h : 0 < dirtyCopies v [x]) :
    x.getPageID = v.getPageID ∧ x.getDirty = true ∧ x.getFrameVector = v.getFrameVector := by
  simp only [dirtyCopies, List.countP_cons, List.countP_nil] at h
  by_cases hp : (decide (x.getPageID = v.getPageID) && x.getDirty &&
      decide (x.getFrameVector = v.getFrameVector)) = true
  · simp only [Bool.and_eq_true, decide_eq_true_eq] at hp
    exact ⟨hp.1.1, hp.1.2, hp.2⟩
  · simp [hp] at h

theorem dirtyCopies_clean {v x : BufferFrame} (h : x.getDirty = false) :
    dirtyCopies v [x] = 0 := by
  simp [dirtyCopies, h]

theorem fix_page_read_log (s : BufferManager) (page_id : Nat) :
    ∃ reads, (fix_page_read s page_id).1.log = s.disk.log ++ reads ∧
      ∀ ev ∈ reads, ev.isWrite = false := by
  unfold fix_page_read
  split
  · exact ⟨[IOEvent.read_block _ _ _], rfl, by simp [IOEvent.isWrite]⟩
  · exact ⟨[], by simp, by simp⟩

theorem victimWrite_congr (d : File) (pageSize : Nat) {x v : BufferFrame}
    (h1 : x.getPageID = v.getPageID) (h2 : x.getFrameVector = v.getFrameVector) :
    victimWrite d pageSize x = victimWrite d pageSize v ∧
    victimEvent pageSize x = victimEvent pageSize v := by
  simp [victimWrite, victimEvent, h1, h2]

theorem victimWrite_blocks (d : File) (pageSize : Nat) (f : BufferFrame)
    (h : (to_string (get_segment_id f.getPageID), offSet f.getPageID pageSize) ∉ d.faulty) :
    (victimWrite d pageSize f).1.blocks.lookup
      (to_string (get_segment_id f.getPageID), offSet f.getPageID pageSize) =
      some f.getFrameVector := by
  unfold victimWrite File.write_block
  simp [h, List.lookup]

/-- What the eviction of a dirty frame `x` leaves on the device. -/
theorem eviction_written (s : BufferManager) (page_id : Nat) (x v : BufferFrame)
    (hx : x ∈ s.fifo ++ s.lru) (hS : Sized s) (hpos : 0 < dirtyCopies v [x]) :
    (∃ reads, (∀ ev ∈ reads, ev.isWrite = false) ∧
      (victimWrite (fix_page_read s page_id).1 s.pageSize x).1.log =
        s.disk.log ++ reads ++ [victimEvent s.pageSize v]) ∧
    v.getFrameVector.length = s.pageSize / 8 ∧
    ((to_string (get_segment_id v.getPageID), offSet v.getPageID s.pageSize) ∉ s.disk.faulty →
      (victimWrite (fix_page_read s page_id).1 s.pageSize x).1.blocks.lookup
        (to_string (get_segment_id v.getPageID), offSet v.getPageID s.pageSize) =
        some v.getFrameVector) := by
  obtain ⟨h1, _, h3⟩ := dirtyCopies_singleton_pos hpos
  obtain ⟨hw, hev⟩ := victimWrite_congr (fix_page_read s page_id).1 s.pageSize h1 h3
  obtain ⟨reads, hr, hnw⟩ := fix_page_read_log s page_id
  refine ⟨⟨reads, hnw, ?_⟩, ?_, ?_⟩
  · rw [(victimWrite_log _ _ _).1, hr, hev]
  · rw [← h3]; exact hS x hx
  · intro hnf
    rw [hw]
    exact victimWrite_blocks _ _ _ (by rw [(fix_page_read_disk s page_id).2.1]; exact hnf)

/-- C11. Durability on eviction: in every state reached from a newly constructed manager,
whenever a call of `fix_page`, however it ends, leaves in FIFO and LRU together fewer dirty
frames holding the page and the bytes of a frame `v` than there were before (a dirty frame
was removed and no frame took over its page, bytes and flag), the call has issued, as its
last call into the device and its only write, one `write_block` with the bytes of `v`,
`pageSize / 8` words, with size `pageSize`, to the file named by the decimal rendering of
`get_segment_id` of the page id, at the offset `get_segment_page_id(id) * pageSize` as
computed in `uint64_t` (the product itself whenever it is below `2^64`); and when that
write does not fail, the device holds the bytes at that place. -/
theorem durability_on_eviction (page_size page_count : Nat) (disk : File)
    (calls : List Call) (s : BufferManager) (page_id : Nat) (exclusive : Bool)
    (s1 : BufferManager) (v : BufferFrame)
    (hrun : run (BufferManager.create page_size page_count disk) calls = some s)
    (h : (fix_page s page_id exclusive).state? = some s1)
    (hdrop : dirtyCopies v (s1.fifo ++ s1.lru) < dirtyCopies v (s.fifo ++ s.lru)) :
    (∃ reads, (∀ ev ∈ reads, ev.isWrite = false) ∧
      s1.disk.log = s.disk.log ++ reads ++
        [IOEvent.write_block (to_string (get_segment_id v.getPageID))
          (offSet v.getPageID s.pageSize) s.pageSize v.getFrameVector]) ∧
    v.getFrameVector.length = s.pageSize / 8 ∧
    ((to_string (get_segment_id v.getPageID), offSet v.getPageID s.pageSize) ∉ s.disk.faulty →
      s1.disk.blocks.lookup
        (to_string (get_segment_id v.getPageID), offSet v.getPageID s.pageSize) =
        some v.getFrameVector) ∧
    (get_segment_page_id v.getPageID * s.pageSize < 2 ^ 64 →
      offSet v.getPageID s.pageSize = get_segment_page_id v.getPageID * s.pageSize) := by
  have hI := Inv_run hrun
  have hS := Sized_run hrun
  have hoff : get_segment_page_id v.getPageID * s.pageSize < 2 ^ 64 →
      offSet v.getPageID s.pageSize = get_segment_page_id v.getPageID * s.pageSize :=
    fun hlt => Nat.mod_eq_of_lt hlt
  have hp := fix_page_path s page_id exclusive
  have hnew := dirtyCopies_newFrame v s page_id exclusive
  generalize fix_page s page_id exclusive = r at hp h
  suffices hmain : (∃ reads, (∀ ev ∈ reads, ev.isWrite = false) ∧
      s1.disk.log = s.disk.log ++ reads ++ [victimEvent s.pageSize v]) ∧
      v.getFrameVector.length = s.pageSize / 8 ∧
      ((to_string (get_segment_id v.getPageID), offSet v.getPageID s.pageSize) ∉
          s.disk.faulty →
        s1.disk.blocks.lookup
          (to_string (get_segment_id v.getPageID), offSet v.getPageID s.pageSize) =
          some v.getFrameVector) from ⟨hmain.1, hmain.2.1, hmain.2.2, hoff⟩
  cases hp with
  | blocked _ =>
    simp only [FixResult.state?, Option.some.injEq] at h; subst h
    exact absurd hdrop (Nat.lt_irrefl _)
  | first _ h1 h2 =>
    simp only [FixResult.state?, Option.some.injEq] at h; subst h
    simp only [dirtyCopies_append] at hdrop
    omega
  | stale_lru => simp [FixResult.state?] at h
  | stale_fifo => simp [FixResult.state?] at h
  | hit position old _ _ hl hold =>
    simp only [FixResult.state?, Option.some.injEq] at h; subst h
    rw [hI.lruMap_eq] at hl
    obtain ⟨f, hf, hfid⟩ := lookup_reassign_getElem hl
    rw [hold] at hf
    simp only [Option.some.injEq] at hf
    subst hf
    have h1 := dirtyCopies_eraseIdx v s.lru position old hold
    have h2 := dirtyCopies_carried v s page_id exclusive old hfid
    simp only [dirtyCopies_append] at hdrop
    omega
  | promote position old _ _ _ hfl _ hold =>
    simp only [FixResult.state?, Option.some.injEq] at h; subst h
    rw [hI.fifoMap_eq] at hfl
    obtain ⟨f, hf, hfid⟩ := lookup_reassign_getElem hfl
    rw [hold] at hf
    simp only [Option.some.injEq] at hf
    subst hf
    have h1 := dirtyCopies_eraseIdx v s.fifo position old hold
    have h2 := dirtyCopies_carried v s page_id exclusive old hfid
    simp only [dirtyCopies_append] at hdrop
    omega
  | lru_clean position i _ _ _ _ _ h0 =>
    simp only [FixResult.state?, Option.some.injEq] at h; subst h
    obtain ⟨x, hx, _, hxd⟩ := findUnfixed_getElem h0
    have h1 := dirtyCopies_eraseIdx v s.lru i x hx
    have h2 := @dirtyCopies_clean v x hxd
    simp only [dirtyCopies_append] at hdrop
    omega
  | lru_dirty position i victim _ _ _ _ _ _ _ hv _ =>
    simp only [FixResult.state?, Option.some.injEq] at h; subst h
    have h1 := dirtyCopies_eraseIdx v s.lru i victim hv
    simp only [dirtyCopies_append] at hdrop
    exact eviction_written s page_id victim v
      (List.mem_append_right _ (List.getElem?_mem hv)) hS (by omega)
  | lru_dirty_fails position i victim _ _ _ _ _ _ _ hv _ =>
    simp only [FixResult.state?, Option.some.injEq] at h; subst h
    have h1 := dirtyCopies_eraseIdx v s.lru i victim hv
    simp only [dirtyCopies_append] at hdrop
    exact eviction_written s page_id victim v
      (List.mem_append_right _ (List.getElem?_mem hv)) hS (by omega)
  | append_fifo =>
    simp only [FixResult.state?, Option.some.injEq] at h; subst h
    simp only [dirtyCopies_append] at hdrop
    omega
  | fifo_clean i _ _ _ _ h0 =>
    simp only [FixResult.state?, Option.some.injEq] at h; subst h
    obtain ⟨x, hx, _, hxd⟩ := findUnfixed_getElem h0
    have h1 := dirtyCopies_eraseIdx v s.fifo i x hx
    have h2 := @dirtyCopies_clean v x hxd
    simp only [dirtyCopies_append] at hdrop
    omega
  | fifo_dirty i victim _ _ _ _ _ _ hv _ =>
    simp only [FixResult.state?, Option.some.injEq] at h; subst h
    have h1 := dirtyCopies_eraseIdx v s.fifo i victim hv
    simp only [dirtyCopies_append] at hdrop
    exact eviction_written s page_id victim v
      (List.mem_append_left _ (List.getElem?_mem hv)) hS (by omega)
  | fifo_dirty_fails i victim _ _ _ _ _ _ hv _ =>
    simp only [FixResult.state?, Option.some.injEq] at h; subst h
    have h1 := dirtyCopies_eraseIdx v s.fifo i victim hv
    simp only [dirtyCopies_append] at hdrop
    exact eviction_written s page_id victim v
      (List.mem_append_left _ (List.getElem?_mem hv)) hS (by omega)
  | full =>
    simp only [FixResult.state?, Option.some.injEq] at h; subst h
    exact absurd hdrop (Nat.lt_irrefl _)

/-- C11 at a concrete input: a pool of one frame with page 1 unfixed and dirty;
`fix_page(2, false)` evicts it and writes it to file `0` at offset 64. -/
theorem durability_on_eviction_witness :
    run (BufferManager.create 64 1 emptyDisk)
      [.fix_page 1 true, .unfix_page (pageRef 1 true) true] = some evictDemo ∧
    (fix_page evictDemo 2 false).state? = some evictDemoNext ∧
    dirtyCopies evictDemoVictim (evictDemoNext.fifo ++ evictDemoNext.lru) <
      dirtyCopies evictDemoVictim (evictDemo.fifo ++ evictDemo.lru) ∧
    (∃ reads, (∀ ev ∈ reads, ev.isWrite = false) ∧
      evictDemoNext.disk.log = evictDemo.disk.log ++ reads ++
        [IOEvent.write_block (to_string (get_segment_id evictDemoVictim.getPageID))
          (offSet evictDemoVictim.getPageID evictDemo.pageSize) evictDemo.pageSize
          evictDemoVictim.getFrameVector]) ∧
    evictDemoNext.disk.log.filter IOEvent.isWrite =
      [IOEvent.write_block "0" 64 64 [0, 0, 0, 0, 0, 0, 0, 0]] :=
  ⟨by decide, by decide, by decide,
    (durability_on_eviction 64 1 emptyDisk
      [.fix_page 1 true, .unfix_page (pageRef 1 true) true] evictDemo 2 false evictDemoNext
      evictDemoVictim (by decide) (by decide) (by decide)).1,
    by decide⟩

/-! ## C19: a write-back that fails -/

/-- C19 (fails on the code). On a device where the write of page 1 fails, with page 1
unfixed and dirty in a pool of one frame, `fix_page(2, false)` ends with the I/O error (as
the claim says), but page 1 is no longer resident: its words are neither in the pool nor on
the device, and page 2 is installed in FIFO.  Lines 218-219 erase the victim and push the
new frame before `write_block` is called at line 235, against the order of the comment
above the loop, "Write it into disk, remove it and insert the new page id".  The same
happens in LRU (lines 157-158 before line 174): on a pool of two frames with the unfixed
dirty page 1 in LRU and page 2 in FIFO, `fix_page(2, false)` ends with the I/O error, page
1 is gone and page 2 is installed in LRU. -/
theorem write_back_failure_loses_victim :
    (run (BufferManager.create 64 1 faultyDisk)
        [.fix_page 1 true, .unfix_page (pageRef 1 true) true]).map
      (fun s => (s.get_fifo_list, s.fifo.map (·.getDirty), (fix_page s 2 false).outcome)) =
      some ([1], [true], Outcome.io_error) ∧
    (run (BufferManager.create 64 1 faultyDisk)
        [.fix_page 1 true, .unfix_page (pageRef 1 true) true]).map
      (fun s => (fix_page s 2 false).state?.map
        (fun s1 => (s1.get_fifo_list, s1.get_lru_list, s1.disk.blocks.length))) =
      some (some ([2], [], 0)) ∧
    (run (BufferManager.create 64 2 faultyDisk)
        [.fix_page 1 true, .unfix_page (pageRef 1 true) true, .fix_page 1 true,
         .unfix_page (pageRef 1 true) true, .fix_page 2 false,
         .unfix_page (pageRef 2 false) false]).map
      (fun s => (s.get_fifo_list, s.get_lru_list, s.lru.map (·.getDirty),
        (fix_page s 2 false).outcome)) =
      some ([2], [1], [true], Outcome.io_error) ∧
    (run (BufferManager.create 64 2 faultyDisk)
        [.fix_page 1 true, .unfix_page (pageRef 1 true) true, .fix_page 1 true,
         .unfix_page (pageRef 1 true) true, .fix_page 2 false,
         .unfix_page (pageRef 2 false) false]).map
      (fun s => (fix_page s 2 false).state?.map
        (fun s1 => (s1.get_fifo_list, s1.get_lru_list, s1.disk.blocks.length))) =
      some (some ([2], [2], 0)) := by
  refine ⟨by decide, by decide, by decide, by decide⟩

/-- What a call of `fix_page` that ends with the I/O error of a failed write-back leaves
behind, in whatever state it is made: the victim (an unfixed dirty frame whose place on the
device is faulty) has been erased from its queue, the other frames of that queue keep their
order, the frame of the incoming page is at the tail of that queue, and the other queue is
unchanged; the failed `write_block` is the last call into the device, nothing has been
written to it, and `page_mutex` is as before the call. -/
theorem write_back_failure_no_rollback (s s1 : BufferManager) (page_id : Nat)
    (exclusive : Bool) (h : fix_page s page_id exclusive = .io_error s1) :
    ∃ victim pre post frame,
      victim.getCounter = 0 ∧ victim.getDirty = true ∧ frame.getPageID = page_id ∧
      (to_string (get_segment_id victim.getPageID), offSet victim.getPageID s.pageSize) ∈
        s.disk.faulty ∧
      ((s.fifo = pre ++ victim :: post ∧ s1.fifo = pre ++ post ++ [frame] ∧
          s1.lru = s.lru) ∨
        (s.lru = pre ++ victim :: post ∧ s1.lru = pre ++ post ++ [frame] ∧
          s1.fifo = s.fifo)) ∧
      (∃ reads, (∀ ev ∈ reads, ev.isWrite = false) ∧
        s1.disk.log = s.disk.log ++ reads ++ [victimEvent s.pageSize victim]) ∧
      s1.disk.blocks = s.disk.blocks ∧ s1.page_mutex = s.page_mutex := by
  have hp := fix_page_path s page_id exclusive
  rw [h] at hp
  have key : ∀ (q : List BufferFrame) (i : Nat) (victim : BufferFrame),
      findUnfixed true q = some i → q[i]? = some victim →
      (victimWrite (fix_page_read s page_id).1 s.pageSize victim).2 = false →
      ∃ pre post, q = pre ++ victim :: post ∧ q.eraseIdx i = pre ++ post ∧
        victim.getCounter = 0 ∧ victim.getDirty = true ∧
        (to_string (get_segment_id victim.getPageID),
          offSet victim.getPageID s.pageSize) ∈ s.disk.faulty ∧
        (∃ reads, (∀ ev ∈ reads, ev.isWrite = false) ∧
          (victimWrite (fix_page_read s page_id).1 s.pageSize victim).1.log =
            s.disk.log ++ reads ++ [victimEvent s.pageSize victim]) ∧
        (victimWrite (fix_page_read s page_id).1 s.pageSize victim).1.blocks =
          s.disk.blocks := by
    intro q i victim h1 hv hw
    obtain ⟨pre, x, post, hq, hl, hx, _⟩ := firstIdx_eq_some h1
    simp only [Bool.and_eq_true, decide_eq_true_eq, beq_iff_eq] at hx
    have hxv : x = victim := by
      have := getElem?_split pre post x
      rw [← hq, hl, hv] at this
      exact (Option.some.inj this).symm
    subst hxv
    obtain ⟨reads, hr, hnw⟩ := fix_page_read_log s page_id
    obtain ⟨hb, hfaulty, _⟩ := fix_page_read_disk s page_id
    have hmem : (to_string (get_segment_id x.getPageID), offSet x.getPageID s.pageSize) ∈
        s.disk.faulty := by
      by_contra hn
      have := (victimWrite_ok (fix_page_read s page_id).1 s.pageSize x).mpr
        (by rw [hfaulty]; exact hn)
      rw [this] at hw
      simp at hw
    refine ⟨pre, post, hq, by rw [hq, ← hl, eraseIdx_split], hx.1, hx.2, hmem,
      ⟨reads, hnw, by rw [(victimWrite_log _ _ _).1, hr]⟩, ?_⟩
    unfold victimWrite File.write_block
    rw [if_pos (by rw [hfaulty]; exact hmem)]
    exact hb
  cases hp with
  | lru_dirty_fails position i victim _ _ _ _ _ _ h1 hv hw =>
    obtain ⟨pre, post, hq, he, hc, hd, hm, hlog, hb⟩ := key s.lru i victim h1 hv hw
    exact ⟨victim, pre, post, newFrame s page_id exclusive, hc, hd, newFrame_pageID _ _ _, hm,
      Or.inr ⟨hq, by simp only [he], rfl⟩, hlog, hb, rfl⟩
  | fifo_dirty_fails i victim _ _ _ _ _ h1 hv hw =>
    obtain ⟨pre, post, hq, he, hc, hd, hm, hlog, hb⟩ := key s.fifo i victim h1 hv hw
    exact ⟨victim, pre, post, newFrame s page_id exclusive, hc, hd, newFrame_pageID _ _ _, hm,
      Or.inl ⟨hq, by simp only [he], rfl⟩, hlog, hb, rfl⟩

/-! ## C12, C14, C17, C18: where the code departs from the claims -/

/-- The state of `page_mutex` after a call of `fix_page` that returns a frame. -/
theorem fix_page_mutex {s s1 : BufferManager} {page_id : Nat} {e : Bool} {f : BufferFrame}
    (h : fix_page s page_id e = .ok s1 f) : s1.page_mutex = mutexAfter s e := by
  have hp := fix_page_path s page_id e
  rw [h] at hp
  cases hp <;> rfl

/-- C12 (fails on the code). Page 2 holds the words 1 to 8 on the device.  On a pool of two
frames, page 1 is promoted and unfixed, page 2 is fixed exclusively and unfixed dirty: page
2 is in FIFO with its bytes and the dirty flag, the pool is full.  `fix_page(2, false)`
issues no `read_block`, but the frame it returns (lines 134-149: a new frame pushed to LRU
without `setDirty` and `setFrameVector`) is clean and holds zeros.  With a pool of one frame
(no LRU victim, lines 214-240) the returned frame is clean and zero as well. -/
theorem hit_in_full_pool_returns_blank_frame :
    (run (BufferManager.create 64 2 dataDisk)
        [.fix_page 1 false, .fix_page 1 false, .unfix_page (pageRef 1 false) false,
         .fix_page 2 true, .unfix_page (pageRef 2 true) true]).map
      (fun s => (s.get_fifo_list, s.fifo.map (·.getFrameVector), s.fifo.map (·.getDirty),
        s.get_lru_list)) =
      some ([2], [[1, 2, 3, 4, 5, 6, 7, 8]], [true], [1]) ∧
    (run (BufferManager.create 64 2 dataDisk)
        [.fix_page 1 false, .fix_page 1 false, .unfix_page (pageRef 1 false) false,
         .fix_page 2 true, .unfix_page (pageRef 2 true) true]).map
      (fun s => (fix_page s 2 false).frame?.map
        (fun f => (f.getPageID, f.getFrameVector, f.getDirty))) =
      some (some (2, [0, 0, 0, 0, 0, 0, 0, 0], false)) ∧
    (run (BufferManager.create 64 2 dataDisk)
        [.fix_page 1 false, .fix_page 1 false, .unfix_page (pageRef 1 false) false,
         .fix_page 2 true, .unfix_page (pageRef 2 true) true]).map
      (fun s => (fix_page s 2 false).state?.map
        (fun s1 => (s1.get_fifo_list, s1.get_lru_list,
          decide (s1.disk.log = s.disk.log)))) =
      some (some ([2], [2], true)) ∧
    (run (BufferManager.create 64 1 dataDisk)
        [.fix_page 2 true, .unfix_page (pageRef 2 true) false]).map
      (fun s => (s.fifo.map (·.getFrameVector),
        (fix_page s 2 false).frame?.map (fun f => (f.getPageID, f.getFrameVector)))) =
      some ([[1, 2, 3, 4, 5, 6, 7, 8]], some (2, [0, 0, 0, 0, 0, 0, 0, 0])) := by
  refine ⟨by decide, by decide, by decide, by decide⟩

/-- C14 (fails on the code). A shared fix does not return with the lock held: every
returning path runs `if (!exclusive) page_mutex.unlock_shared();`.  After
`fix_page(1, false)` on a new manager `page_mutex` is free, with no shared owner; a
following `fix_page(2, true)` is granted the lock exclusively while page 1 is still
fixed.  An exclusive fix does return holding the lock, and `unfix_page` releases it. -/
theorem shared_fix_returns_unlocked :
    (fix_page (BufferManager.create 64 2 emptyDisk) 1 false).state?.map
      (fun s => (s.page_mutex, s.page_mutex.sharedCount)) =
      some (shared_mutex.unlocked, 0) ∧
    (run (BufferManager.create 64 2 emptyDisk) [.fix_page 1 false, .fix_page 2 true]).map
      (fun s => (s.get_fifo_list, s.fifo.map (·.getCounter), s.page_mutex)) =
      some ([1, 2], [1, 1], shared_mutex.exclusive) ∧
    (run (BufferManager.create 64 2 emptyDisk)
        [.fix_page 1 true, .unfix_page (pageRef 1 true) false]).map
      (fun s => s.page_mutex) = some shared_mutex.unlocked := by
  refine ⟨by decide, by decide, by decide⟩

/-- C17 (fails on the code). On a pool of two frames, page 1 is fixed and unfixed, fixed
again (which promotes it to LRU) and unfixed again, then page 2 is fixed: no fix of page 1
is outstanding, FIFO holds the fixed page 2, LRU the unfixed clean page 1, the pool is full
and page 3 is not resident.  `fix_page(3, _)` throws `buffer_full_error`: on a miss, lines
183-249 search `fifo` only. -/
theorem miss_ignores_unfixed_lru_frame :
    outstanding 1 (BufferManager.create 64 2 emptyDisk)
        [.fix_page 1 false, .unfix_page (pageRef 1 false) false, .fix_page 1 false,
         .unfix_page (pageRef 1 false) false, .fix_page 2 false] = 0 ∧
    (run (BufferManager.create 64 2 emptyDisk)
        [.fix_page 1 false, .unfix_page (pageRef 1 false) false, .fix_page 1 false,
         .unfix_page (pageRef 1 false) false, .fix_page 2 false]).map
      (fun s => (s.get_fifo_list, s.fifo.map (·.getCounter), s.get_lru_list,
        s.lru.map (·.getCounter), s.lru.map (·.getDirty))) =
      some ([2], [1], [1], [0], [false]) ∧
    (run (BufferManager.create 64 2 emptyDisk)
        [.fix_page 1 false, .unfix_page (pageRef 1 false) false, .fix_page 1 false,
         .unfix_page (pageRef 1 false) false, .fix_page 2 false]).map
      (fun s => ((fix_page s 3 false).outcome, (fix_page s 3 true).outcome)) =
      some (Outcome.buffer_full_error, Outcome.buffer_full_error) := by
  refine ⟨by decide, by decide, by decide⟩

/-- C18 (fails on the code). On a pool of two frames, page 1 is fixed and unfixed, fixed
again (which promotes it to LRU) and unfixed again, then page 2 is fixed and unfixed: no
fix of page 1 or of page 2 is outstanding, page 2 is in FIFO, the unfixed clean page 1 in
LRU, and the pool is full.  `fix_page(2, false)` evicts page 1 from LRU and pushes page 2
to the LRU tail, but lines 134-149 do not erase page 2 from `fifo`: it is still in
`get_fifo_list`, and `fifoMap` still has it as a key. -/
theorem promotion_in_full_pool_keeps_fifo_entry :
    outstanding 1 (BufferManager.create 64 2 emptyDisk)
        [.fix_page 1 false, .unfix_page (pageRef 1 false) false, .fix_page 1 false,
         .unfix_page (pageRef 1 false) false, .fix_page 2 false,
         .unfix_page (pageRef 2 false) false] = 0 ∧
    outstanding 2 (BufferManager.create 64 2 emptyDisk)
        [.fix_page 1 false, .unfix_page (pageRef 1 false) false, .fix_page 1 false,
         .unfix_page (pageRef 1 false) false, .fix_page 2 false,
         .unfix_page (pageRef 2 false) false] = 0 ∧
    (run (BufferManager.create 64 2 emptyDisk)
        [.fix_page 1 false, .unfix_page (pageRef 1 false) false, .fix_page 1 false,
         .unfix_page (pageRef 1 false) false, .fix_page 2 false,
         .unfix_page (pageRef 2 false) false]).map
      (fun s => (s.get_fifo_list, s.get_lru_list, s.lru.map (·.getCounter),
        s.lru.map (·.getDirty))) =
      some ([2], [1], [0], [false]) ∧
    (run (BufferManager.create 64 2 emptyDisk)
        [.fix_page 1 false, .unfix_page (pageRef 1 false) false, .fix_page 1 false,
         .unfix_page (pageRef 1 false) false, .fix_page 2 false,
         .unfix_page (pageRef 2 false) false]).map
      (fun s => (fix_page s 2 false).outcome) = some Outcome.ok ∧
    (run (BufferManager.create 64 2 emptyDisk)
        [.fix_page 1 false, .unfix_page (pageRef 1 false) false, .fix_page 1 false,
         .unfix_page (pageRef 1 false) false, .fix_page 2 false,
         .unfix_page (pageRef 2 false) false]).map
      (fun s => (fix_page s 2 false).state?.map
        (fun s1 => (s1.get_fifo_list, s1.get_lru_list, s1.fifoMap))) =
      some (some ([2], [2], [(2, 0)])) := by
  refine ⟨by decide, by decide, by decide, by decide, by decide⟩

/-! ## C16: two exclusive fixes of one page at once -/

/-- A call of `fix_page` is its lines 58-66 followed at once by its lines 67-249. -/
theorem fix_page_eq_resume (s : BufferManager) (page_id : Nat) (exclusive : Bool) :
    fix_page s page_id exclusive =
      fix_page_resume (fix_page_enter s page_id).1 page_id exclusive
        (fix_page_enter s page_id).2 := rfl

/-- C16 (fails on the code). Two threads call `fix_page(1, true)` on a new manager of ten
frames, increment the counter of the page 1000 times and unfix it dirty.  In the schedule
in which both run lines 58-66 before either runs line 67, both find page 1 in neither map
and two `read_block` calls are issued for it, where the claim says exactly one; the second
thread finds the page in FIFO once it has the lock and goes on with the words the first
left, so the counter ends at 2000.  When the second thread enters after the first has
unfixed, one `read_block` is issued. -/
theorem racing_fixes_read_twice :
    (raceSchedule 10).map (fun s => s.disk.log) =
      some [IOEvent.read_block "0" 64 64, IOEvent.read_block "0" 64 64] ∧
    (raceSchedule 10).map (fun s => (s.get_fifo_list, s.get_lru_list,
        s.lru.map (·.getFrameVector.head?))) = some ([], [1], [some 2000]) ∧
    (serialSchedule 10).map (fun s => s.disk.log) = some [IOEvent.read_block "0" 64 64] ∧
    (serialSchedule 10).map (fun s => (s.get_fifo_list, s.get_lru_list,
        s.lru.map (·.getFrameVector.head?))) = some ([], [1], [some 2000]) := by
  refine ⟨by decide, by decide, by decide, by decide⟩

end moderndbs
